import Mathlib

/-!
Verification development for the tick-based battle resolver in
`src/resolver/logic.ts` (with the fixed tables of `src/schema/constants.ts`).

The TypeScript source is embedded shallowly:

* JavaScript `Map`s become association lists that preserve insertion order
  (`Map.set` replaces an existing key in place and appends a fresh key at the
  end, which `setTile`/`setAcc` mirror); the source keys tiles by the string
  `x,y`, which is injective on integer positions, so we key by `Position`
  directly.
* The closure-based linear congruential RNG becomes an explicit `Nat` state;
  `next()` returns `state' / 2^32` for the advanced state `state'`, so
  `next() < 0.5` is exactly `state' < 2^31` and `Math.floor(next() * max)` is
  exactly `state' * max / 2^32` (`max` is an occupant count, far below `2^21`,
  so the double-precision product is exact).
* `throw` becomes `Except String`; a thrown error discards all local state,
  so an `Except.error` result carries no partial event log, just as the
  worker wrapper reports only the message.
* JavaScript's stable in-place `sort` becomes `List.insertionSort`, which is
  also stable (earlier elements are inserted in front of later, equal ones).
* The breadth-first search loop of `findMoveStep` runs on fuel
  `grid.width * grid.height + 1`: every queue push is preceded by an
  insertion into `visited`, `visited` only ever contains the start tile and
  in-grid tiles (anything else fails `canEnterTile`), so the number of pops
  can never exceed the fuel and the out-of-fuel branch is unreachable.
* Numbers: unit ids, sizes, ticks, seeds and caps are natural numbers
  (the spec's input contract calls for integer ids and tick limits);
  positions and grid bounds are integers because path search forms
  out-of-grid neighbor coordinates.
-/

namespace TickBattle

/-- Faction, `Side` in `schema/types.ts`. -/
inductive Side where
  | Red
  | Blue
deriving DecidableEq, Repr

/-- `UnitType` in `schema/types.ts`. -/
inductive UnitType where
  | Infantry
  | Archer
  | Cavalry
  | Mage
deriving DecidableEq, Repr

/-- `ProjectileKind` in `schema/types.ts`. -/
inductive ProjectileKind where
  | Arrow
  | Fireball
deriving DecidableEq, Repr

/-- An `(x, y)` tile coordinate, `Position` in `schema/types.ts`. -/
structure Position where
  x : Int
  y : Int
deriving DecidableEq, Repr

/-- One unit of the battle input, `UnitInput` in `schema/types.ts`. -/
structure UnitInput where
  id : Nat
  side : Side
  type : UnitType
  size : Nat
  position : Position
deriving DecidableEq, Repr

/-- The `grid` field of `BattleInput`. -/
structure GridSize where
  width : Int
  height : Int
deriving DecidableEq, Repr

/-- The `limits` field of `BattleInput`. -/
structure TileLimits where
  maxUnitsPerTile : Nat
  maxSizePerTile : Nat
deriving DecidableEq, Repr

/-- `BattleInput` in `schema/types.ts`. -/
structure BattleInput where
  grid : GridSize
  limits : TileLimits
  seed : Nat
  timeLimit : Nat
  units : List UnitInput
deriving DecidableEq, Repr

/-- `UNIT_SIZES` in `schema/constants.ts`. -/
def UNIT_SIZES : UnitType → Nat
  | .Infantry => 2
  | .Archer => 2
  | .Cavalry => 3
  | .Mage => 2

/-- One row of `UNIT_COSTS`. -/
structure UnitCosts where
  move : Nat
  attack : Nat
  wait : Nat
deriving DecidableEq, Repr

/-- `UNIT_COSTS` in `schema/constants.ts`. -/
def UNIT_COSTS : UnitType → UnitCosts
  | .Infantry => ⟨6, 12, 1⟩
  | .Archer => ⟨6, 14, 1⟩
  | .Cavalry => ⟨4, 12, 1⟩
  | .Mage => ⟨6, 16, 1⟩

/-- `UNIT_RANGES` in `schema/constants.ts`. -/
def UNIT_RANGES : UnitType → Nat
  | .Infantry => 1
  | .Archer => 5
  | .Cavalry => 1
  | .Mage => 6

/-- `PROJECTILE_SPEED` in `schema/constants.ts`. -/
def PROJECTILE_SPEED : ProjectileKind → Nat
  | .Arrow => 2
  | .Fireball => 3

/-- A deployment column range; the source field `end` is a Lean keyword and
is renamed `stop`. -/
structure Zone where
  start : Int
  stop : Int
deriving DecidableEq, Repr

/-- `DEPLOYMENT_COLUMNS` in `schema/constants.ts`. -/
def DEPLOYMENT_COLUMNS : Side → Zone
  | .Red => ⟨0, 2⟩
  | .Blue => ⟨9, 11⟩

/-- `MIN_RANGED_DISTANCE` in `schema/constants.ts`. -/
def MIN_RANGED_DISTANCE : Nat := 1

/-- `STALL_TICKS` in `schema/constants.ts`. -/
def STALL_TICKS : Nat := 200

/-- `MAX_LOOP_GUARD` in `resolver/logic.ts`. -/
def MAX_LOOP_GUARD : Nat := 5000

/-- The LCG step of `createRng`: the state after one `next()` call.  The
value `next()` returns is this state divided by `2^32`. -/
def rngNext (state : Nat) : Nat := (state * 1664525 + 1013904223) % 4294967296

/-- `Math.floor(next() * max)` for the already-advanced state. -/
def rngScale (state max : Nat) : Nat := state * max / 4294967296

/-- `seed >>> 0` for natural-number seeds. -/
def rngSeed (seed : Nat) : Nat := seed % 4294967296

/-- `manhattan` in `resolver/logic.ts`. -/
def manhattan (a b : Position) : Nat := (a.x - b.x).natAbs + (a.y - b.y).natAbs

/-- `isWithin` in `resolver/logic.ts`. -/
def isWithin (pos : Position) (input : BattleInput) : Bool :=
  decide (0 ≤ pos.x) && decide (pos.x < input.grid.width) &&
  decide (0 ≤ pos.y) && decide (pos.y < input.grid.height)

/-- Rendering of a side for error messages. -/
def sideName : Side → String
  | .Red => "Red"
  | .Blue => "Blue"

/-- The `x,y` tile key used in error messages. -/
def keyStr (p : Position) : String := toString p.x ++ "," ++ toString p.y

/-- The per-tile accumulator of `validateInput`. -/
structure TileAcc where
  side : Side
  count : Nat
  size : Nat
deriving DecidableEq, Repr

/-- The `tileCounts` map of `validateInput`. -/
abbrev TileMap := List (Position × TileAcc)

/-- `Map.get` on `tileCounts`. -/
def lookupAcc (m : TileMap) (p : Position) : Option TileAcc :=
  (m.find? fun e => decide (e.1 = p)).map (·.2)

/-- `Map.set` on `tileCounts`: replace in place, or append a fresh key. -/
def setAcc (m : TileMap) (p : Position) (a : TileAcc) : TileMap :=
  if m.any fun e => decide (e.1 = p) then
    m.map fun e => if e.1 = p then (p, a) else e
  else m ++ [(p, a)]

/-- The loop body of `validateInput`, with the duplicate-id set and the
per-tile accumulators threaded explicitly. -/
def validateGo (input : BattleInput) : List UnitInput → List Nat → TileMap → Except String Unit
  | [], _, _ => .ok ()
  | u :: rest, ids, tiles =>
    if u.id ∈ ids then
      .error ("Duplicate unit id " ++ toString u.id ++ ".")
    else if UNIT_SIZES u.type ≠ u.size then
      .error ("Unit " ++ toString u.id ++ " has size " ++ toString u.size ++
        " but expected " ++ toString (UNIT_SIZES u.type) ++ ".")
    else if !(isWithin u.position input) then
      .error ("Unit " ++ toString u.id ++ " placed outside the grid.")
    else if u.position.x < (DEPLOYMENT_COLUMNS u.side).start ∨
        (DEPLOYMENT_COLUMNS u.side).stop < u.position.x then
      .error ("Unit " ++ toString u.id ++ " placed outside " ++ sideName u.side ++
        " deployment zone.")
    else
      match lookupAcc tiles u.position with
      | none => validateGo input rest (u.id :: ids) (setAcc tiles u.position ⟨u.side, 1, u.size⟩)
      | some acc =>
        if acc.side ≠ u.side then
          .error ("Tile " ++ keyStr u.position ++ " mixes sides.")
        else if input.limits.maxUnitsPerTile < acc.count + 1 then
          .error ("Tile " ++ keyStr u.position ++ " exceeds max units.")
        else if input.limits.maxSizePerTile < acc.size + u.size then
          .error ("Tile " ++ keyStr u.position ++ " exceeds max size.")
        else
          validateGo input rest (u.id :: ids)
            (setAcc tiles u.position ⟨acc.side, acc.count + 1, acc.size + u.size⟩)

/-- `validateInput` in `resolver/logic.ts`. -/
def validateInput (input : BattleInput) : Except String Unit :=
  validateGo input input.units [] []

/-- `UnitState` in `resolver/logic.ts`. -/
structure UnitState where
  id : Nat
  side : Side
  type : UnitType
  size : Nat
  position : Position
  alive : Bool
  nextAvailableTick : Nat
deriving DecidableEq, Repr

/-- `ProjectileState` in `resolver/logic.ts`; the source field `from` is a
Lean keyword and is renamed `fromPos`. -/
structure ProjectileState where
  id : Nat
  kind : ProjectileKind
  sourceId : Nat
  sourceSide : Side
  fromPos : Position
  target : Position
  fireTick : Nat
  impactTick : Nat
deriving DecidableEq, Repr

/-- The `winner` field of `BattleResult`: a side or a draw. -/
inductive Winner where
  | Red
  | Blue
  | Draw
deriving DecidableEq, Repr

/-- The `reason` field of `BattleResult`. -/
inductive EndReason where
  | eliminated
  | timeLimitReached
  | stalled
deriving DecidableEq, Repr

/-- `BattleResult` in `schema/types.ts` (survivors flattened). -/
structure BattleResult where
  winner : Winner
  reason : EndReason
  tick : Nat
  survivorsRed : Nat
  survivorsBlue : Nat
deriving DecidableEq, Repr

/-- The cause tag of a `UnitRemoved` payload. -/
inductive RemovalCause where
  | melee
  | arrow
  | fireball
deriving DecidableEq, Repr

/-- `BattleEvent` in `schema/types.ts`: each constructor carries the common
`tick` and `seq` fields first, then its payload fields in source order. -/
inductive BattleEvent where
  | battleInit (tick seq : Nat) (input : BattleInput)
  | unitSpawned (tick seq : Nat) (unit : UnitInput)
  | unitMoved (tick seq : Nat) (unitId : Nat) (src dst : Position)
  | meleeAttackResolved (tick seq : Nat) (attackerId targetId : Nat) (hit : Bool)
  | projectileFired (tick seq : Nat) (sourceId : Nat) (sourceSide : Side)
      (kind : ProjectileKind) (src target : Position) (fireTick impactTick distance : Nat)
  | projectileImpacted (tick seq : Nat) (sourceId : Nat) (sourceSide : Side)
      (kind : ProjectileKind) (target : Position) (impactTick : Nat)
  | unitRemoved (tick seq : Nat) (unitId : Nat) (side : Side) (cause : RemovalCause)
      (sourceId : Nat)
  | battleEnded (tick seq : Nat) (result : BattleResult)
deriving DecidableEq, Repr

/-- The `tick` field shared by all events. -/
def BattleEvent.tick : BattleEvent → Nat
  | .battleInit t _ _ => t
  | .unitSpawned t _ _ => t
  | .unitMoved t _ _ _ _ => t
  | .meleeAttackResolved t _ _ _ _ => t
  | .projectileFired t _ _ _ _ _ _ _ _ _ => t
  | .projectileImpacted t _ _ _ _ _ _ => t
  | .unitRemoved t _ _ _ _ _ => t
  | .battleEnded t _ _ => t

/-- The `seq` field shared by all events. -/
def BattleEvent.seq : BattleEvent → Nat
  | .battleInit _ q _ => q
  | .unitSpawned _ q _ => q
  | .unitMoved _ q _ _ _ => q
  | .meleeAttackResolved _ q _ _ _ => q
  | .projectileFired _ q _ _ _ _ _ _ _ _ => q
  | .projectileImpacted _ q _ _ _ _ _ => q
  | .unitRemoved _ q _ _ _ _ => q
  | .battleEnded _ q _ => q

/-- `ResolveOutput` in `schema/types.ts`. -/
structure ResolveOutput where
  input : BattleInput
  events : List BattleEvent
  result : BattleResult
deriving DecidableEq, Repr

/-- The `tileIndex` map: tile → ids of units on it, in insertion order. -/
abbrev TileIndex := List (Position × List Nat)

/-- The whole mutable state of `resolveBattle`, made explicit.
`projectiles` is the flattened `projectilesByTick` (the per-tick buckets are
recovered by filtering on `impactTick`, which preserves scheduling order);
`activityThisTick` is the loop-local flag of the same name. -/
structure SimState where
  units : List UnitState
  tileIndex : TileIndex
  projectiles : List ProjectileState
  events : List BattleEvent
  rngState : Nat
  nextProjectileId : Nat
  lastActivityTick : Nat
  activityThisTick : Bool
deriving DecidableEq, Repr

/-- `units.get(id)`. -/
def findUnit (units : List UnitState) (id : Nat) : Option UnitState :=
  units.find? fun u => decide (u.id = id)

/-- In-place mutation of the unit with the given id (ids are unique after
validation, so at most one entry changes). -/
def updateUnit (units : List UnitState) (id : Nat) (f : UnitState → UnitState) :
    List UnitState :=
  units.map fun u => if u.id = id then f u else u

/-- `tileIndex.get(key) ?? []`. -/
def lookupTile (ti : TileIndex) (p : Position) : List Nat :=
  ((ti.find? fun e => decide (e.1 = p)).map (·.2)).getD []

/-- `tileIndex.set(key, l)`: replace in place, or append a fresh key. -/
def setTile (ti : TileIndex) (p : Position) (l : List Nat) : TileIndex :=
  if ti.any fun e => decide (e.1 = p) then
    ti.map fun e => if e.1 = p then (p, l) else e
  else ti ++ [(p, l)]

/-- `addUnitToTile` in `resolveBattle`. -/
def addUnitToTile (ti : TileIndex) (id : Nat) (p : Position) : TileIndex :=
  setTile ti p (lookupTile ti p ++ [id])

/-- `getTileUnits` in `resolver/logic.ts`. -/
def getTileUnits (ti : TileIndex) (units : List UnitState) (p : Position) :
    List UnitState :=
  (lookupTile ti p).filterMap (findUnit units)

/-- The living units among those recorded under a list of ids; the common
shape of `getTileUnits(...).filter(u => u.alive)` and of the per-entry body
of `checkTileConstraints`. -/
def livingOf (units : List UnitState) (ids : List Nat) : List UnitState :=
  (ids.filterMap (findUnit units)).filter (·.alive)

/-- `getEnemyUnits` in `resolver/logic.ts` (the units map iterates in
insertion order, which is ascending id). -/
def getEnemyUnits (units : List UnitState) (side : Side) : List UnitState :=
  units.filter fun u => u.alive && decide (u.side ≠ side)

/-- `getFriendlyUnits` in `resolver/logic.ts`. -/
def getFriendlyUnits (units : List UnitState) (side : Side) : List UnitState :=
  units.filter fun u => u.alive && decide (u.side = side)

/-- The ascending-id comparator `(a, b) => a.id - b.id` on unit states. -/
def stateIdLe (a b : UnitState) : Prop := a.id ≤ b.id

instance : DecidableRel stateIdLe := fun a b => Nat.decLe a.id b.id

instance : IsTotal UnitState stateIdLe := ⟨fun a b => Nat.le_total a.id b.id⟩

instance : IsTrans UnitState stateIdLe := ⟨fun _ _ _ => Nat.le_trans⟩

/-- The living enemies at Manhattan distance exactly 1, in unit-table
order: the candidate list built inside `findAdjacentEnemy`. -/
def adjacentEnemies (unit : UnitState) (units : List UnitState) : List UnitState :=
  (getEnemyUnits units unit.side).filter fun e =>
    decide (manhattan unit.position e.position = 1)

/-- `findAdjacentEnemy` in `resolver/logic.ts`. -/
def findAdjacentEnemy (unit : UnitState) (units : List UnitState) : Option UnitState :=
  ((adjacentEnemies unit units).insertionSort stateIdLe).head?

/-- An entry of the `enemyTiles` map of `getEnemyTilesInRange`. -/
structure TileCount where
  position : Position
  count : Nat
deriving DecidableEq, Repr

/-- One `enemyTiles` update: bump the count under an existing key or append
a fresh key with count 1 (the stored position of an existing key equals the
incoming one, since the key is the position). -/
def bumpTile (acc : List TileCount) (p : Position) : List TileCount :=
  if acc.any fun t => decide (t.position = p) then
    acc.map fun t => if t.position = p then ⟨t.position, t.count + 1⟩ else t
  else acc ++ [⟨p, 1⟩]

/-- `getEnemyTilesInRange` in `resolver/logic.ts`. -/
def getEnemyTilesInRange (unit : UnitState) (units : List UnitState) (range : Nat) :
    List TileCount :=
  (getEnemyUnits units unit.side).foldl
    (fun acc enemy =>
      let d := manhattan unit.position enemy.position
      if d < MIN_RANGED_DISTANCE ∨ range < d then acc else bumpTile acc enemy.position)
    []

/-- `canEnterTile` in `resolver/logic.ts`. -/
def canEnterTile (unit : UnitState) (ti : TileIndex) (units : List UnitState)
    (pos : Position) (input : BattleInput) : Bool :=
  if !(isWithin pos input) then false
  else
    let existing := (getTileUnits ti units pos).filter (·.alive)
    if existing.isEmpty then true
    else if existing.any fun u => decide (u.side ≠ unit.side) then false
    else
      decide (existing.length + 1 ≤ input.limits.maxUnitsPerTile) &&
      decide ((existing.map (·.size)).sum + unit.size ≤ input.limits.maxSizePerTile)

/-- The fixed `+x, -x, +y, -y` neighbor expansion order. -/
def neighborsOf (p : Position) : List Position :=
  [⟨p.x + 1, p.y⟩, ⟨p.x - 1, p.y⟩, ⟨p.x, p.y + 1⟩, ⟨p.x, p.y - 1⟩]

/-- A breadth-first-search queue entry of `findMoveStep`. -/
structure BfsNode where
  pos : Position
  firstStep : Option Position
deriving DecidableEq, Repr

/-- Processing of one neighbor inside the search loop: skip it if visited or
blocked, otherwise mark it visited and enqueue it, recording the first step
(`current.firstStep ?? neighbor`). -/
def bfsVisit (unit : UnitState) (ti : TileIndex) (units : List UnitState)
    (input : BattleInput) (cur : BfsNode) (acc : List Position × List BfsNode)
    (n : Position) : List Position × List BfsNode :=
  if n ∈ acc.1 then acc
  else if !(canEnterTile unit ti units n input) then acc
  else (acc.1 ++ [n], acc.2 ++ [⟨n, some (cur.firstStep.getD n)⟩])

/-- The `while (queue.length)` loop of `findMoveStep`, on fuel (see the
header note: the fuel bound can never be reached). -/
def bfsLoop (unit : UnitState) (ti : TileIndex) (units : List UnitState)
    (input : BattleInput) (startKey : Position) (targetKeys : List Position) :
    Nat → List BfsNode → List Position → Option Position
  | 0, _, _ => none
  | _ + 1, [], _ => none
  | fuel + 1, cur :: rest, visited =>
    if cur.pos ≠ startKey ∧ cur.pos ∈ targetKeys then cur.firstStep
    else
      let r := (neighborsOf cur.pos).foldl (bfsVisit unit ti units input cur) (visited, [])
      bfsLoop unit ti units input startKey targetKeys fuel (rest ++ r.2) r.1

/-- The fuel given to `bfsLoop`: one more than the tile count of the grid. -/
def gridFuel (input : BattleInput) : Nat :=
  input.grid.width.toNat * input.grid.height.toNat + 1

/-- The `targetKeys` set of `findMoveStep`: every passable neighbor of every
living enemy (set semantics: deduplicated, first-insertion order). -/
def moveTargets (unit : UnitState) (ti : TileIndex) (units : List UnitState)
    (input : BattleInput) (enemyUnits : List UnitState) : List Position :=
  enemyUnits.foldl
    (fun ks enemy =>
      (neighborsOf enemy.position).foldl
        (fun ks n =>
          if canEnterTile unit ti units n input then
            if n ∈ ks then ks else ks ++ [n]
          else ks)
        ks)
    []

/-- `findMoveStep` in `resolver/logic.ts`. -/
def findMoveStep (unit : UnitState) (ti : TileIndex) (units : List UnitState)
    (input : BattleInput) : Option Position :=
  let enemyUnits := getEnemyUnits units unit.side
  if enemyUnits.isEmpty then none
  else
    let targetKeys := moveTargets unit ti units input enemyUnits
    if targetKeys.isEmpty then none
    else
      bfsLoop unit ti units input unit.position targetKeys (gridFuel input)
        [⟨unit.position, none⟩] [unit.position]

/-- `sortTilesDeterministic` as a total order: ascending row, then column. -/
def tileLe (a b : TileCount) : Prop :=
  a.position.y < b.position.y ∨ (a.position.y = b.position.y ∧ a.position.x ≤ b.position.x)

instance : DecidableRel tileLe := fun a b =>
  inferInstanceAs (Decidable (a.position.y < b.position.y ∨
    (a.position.y = b.position.y ∧ a.position.x ≤ b.position.x)))

/-- `applyRemoval` in `resolver/logic.ts`: flip the alive flag and revoke
the tile membership of the unit's recorded position (if that key exists). -/
def applyRemoval (u : UnitState) (ti : TileIndex) (units : List UnitState) :
    TileIndex × List UnitState :=
  let units' := updateUnit units u.id fun v => { v with alive := false }
  match ti.find? fun e => decide (e.1 = u.position) with
  | none => (ti, units')
  | some _ =>
    (setTile ti u.position ((lookupTile ti u.position).filter fun id => decide (id ≠ u.id)),
     units')

/-- `checkTileConstraints` in `resolver/logic.ts`. -/
def checkTileConstraints (ti : TileIndex) (units : List UnitState)
    (input : BattleInput) : Except String Unit :=
  ti.forM fun e => do
    let living := livingOf units e.2
    match living.head? with
    | none => pure ()
    | some first =>
      if living.any fun u => decide (u.side ≠ first.side) then
        throw ("Invariant violation: mixed sides on tile " ++ keyStr e.1 ++ ".")
      else if input.limits.maxUnitsPerTile < living.length then
        throw ("Invariant violation: too many units on tile " ++ keyStr e.1 ++ ".")
      else if input.limits.maxSizePerTile < (living.map (·.size)).sum then
        throw ("Invariant violation: tile " ++ keyStr e.1 ++ " exceeds max size.")
      else pure ()

/-- The body of the fireball loop `for (const target of ordered)`: remove
one occupant and emit its removal event. -/
def fireballStep (tick srcId : Nat) (s : SimState) (t : UnitState) : SimState :=
  let r := applyRemoval t s.tileIndex s.units
  { s with
    tileIndex := r.1,
    units := r.2,
    events := s.events ++ [.unitRemoved tick srcId t.id t.side .fireball srcId],
    activityThisTick := true }

/-- One projectile impact from the impact phase of the main loop: emit the
impact event, then resolve damage against the frozen target tile. -/
def impactOne (input : BattleInput) (tick : Nat) (s : SimState)
    (p : ProjectileState) : SimState :=
  let s₁ : SimState :=
    { s with
      events := s.events ++
        [.projectileImpacted tick p.sourceId p.sourceId p.sourceSide p.kind p.target
          p.impactTick],
      activityThisTick := true }
  let occupants := (getTileUnits s₁.tileIndex s₁.units p.target).filter fun u =>
    u.alive && decide (u.side ≠ p.sourceSide)
  if occupants.isEmpty then s₁
  else
    match p.kind with
    | .Arrow =>
      let st := rngNext s₁.rngState
      match occupants.get? (rngScale st occupants.length) with
      | none => { s₁ with rngState := st }
      | some target =>
        let r := applyRemoval target s₁.tileIndex s₁.units
        { s₁ with
          rngState := st,
          tileIndex := r.1,
          units := r.2,
          events := s₁.events ++
            [.unitRemoved tick p.sourceId target.id target.side .arrow p.sourceId],
          activityThisTick := true }
    | .Fireball =>
      (occupants.insertionSort stateIdLe).foldl (fireballStep tick p.sourceId) s₁

/-- The ranged target choice of the action phase: the type-specific tie
break over the enemy tiles in range (`none` when the unit is not ranged or
no tile is in range). -/
def rangedChoice (unit : UnitState) (units : List UnitState) : Option TileCount :=
  if unit.type = .Archer ∨ unit.type = .Mage then
    let tiles := getEnemyTilesInRange unit units (UNIT_RANGES unit.type)
    if tiles.isEmpty then none
    else if unit.type = .Archer then
      let sorted := tiles.insertionSort fun a b =>
        manhattan unit.position a.position ≤ manhattan unit.position b.position
      match sorted.head? with
      | none => none
      | some t0 =>
        let nearest := sorted.filter fun t =>
          decide (manhattan unit.position t.position = manhattan unit.position t0.position)
        (nearest.insertionSort tileLe).head?
    else
      let sorted := tiles.insertionSort fun a b => b.count ≤ a.count
      match sorted.head? with
      | none => none
      | some t0 =>
        let contenders := sorted.filter fun t => decide (t.count = t0.count)
        (contenders.insertionSort fun a b =>
          manhattan unit.position a.position < manhattan unit.position b.position ∨
            (manhattan unit.position a.position = manhattan unit.position b.position ∧
              tileLe a b)).head?
  else none

/-- One unit's turn in the action phase of the main loop: melee first, then
ranged, then the movement fallback, then wait, exactly as in the source's
per-unit body (the `checkTileConstraints` call after a move can fail, hence
the `Except`). -/
def unitAct (input : BattleInput) (tick : Nat) (s : SimState) (unitId : Nat) :
    Except String SimState :=
  match findUnit s.units unitId with
  | none => .ok s
  | some unit =>
    if !unit.alive || decide (tick < unit.nextAvailableTick) then .ok s
    else
      let costs := UNIT_COSTS unit.type
      match
        (if unit.type = .Infantry ∨ unit.type = .Cavalry then
          findAdjacentEnemy unit s.units
        else none) with
      | some target =>
        let st := rngNext s.rngState
        let hit := decide (st < 2147483648)
        let s₁ : SimState :=
          { s with
            rngState := st,
            events := s.events ++
              [.meleeAttackResolved tick unit.id unit.id target.id hit],
            activityThisTick := true }
        let s₂ : SimState :=
          if hit ∧ target.alive then
            let r := applyRemoval target s₁.tileIndex s₁.units
            { s₁ with
              tileIndex := r.1,
              units := r.2,
              events := s₁.events ++
                [.unitRemoved tick unit.id target.id target.side .melee unit.id],
              activityThisTick := true }
          else s₁
        .ok { s₂ with
          units := updateUnit s₂.units unit.id fun u =>
            { u with nextAvailableTick := tick + costs.attack } }
      | none =>
        match rangedChoice unit s.units with
        | some chosen =>
          let distance := manhattan unit.position chosen.position
          let kind : ProjectileKind := if unit.type = .Archer then .Arrow else .Fireball
          let impactTick := tick + PROJECTILE_SPEED kind * distance
          let proj : ProjectileState :=
            ⟨s.nextProjectileId, kind, unit.id, unit.side, unit.position, chosen.position,
              tick, impactTick⟩
          .ok { s with
            projectiles := s.projectiles ++ [proj],
            nextProjectileId := s.nextProjectileId + 1,
            events := s.events ++
              [.projectileFired tick unit.id unit.id unit.side kind unit.position
                chosen.position tick impactTick distance],
            activityThisTick := true,
            units := updateUnit s.units unit.id fun u =>
              { u with nextAvailableTick := tick + costs.attack } }
        | none =>
          match findMoveStep unit s.tileIndex s.units input with
          | some step =>
            let src := unit.position
            let units₁ := updateUnit s.units unit.id fun u => { u with position := step }
            let ti₁ := setTile s.tileIndex src
              ((lookupTile s.tileIndex src).filter fun id => decide (id ≠ unit.id))
            let ti₂ := addUnitToTile ti₁ unit.id step
            let s₁ : SimState :=
              { s with
                units := units₁,
                tileIndex := ti₂,
                events := s.events ++ [.unitMoved tick unit.id unit.id src step],
                activityThisTick := true }
            match checkTileConstraints s₁.tileIndex s₁.units input with
            | .error e => .error e
            | .ok _ =>
              .ok { s₁ with
                units := updateUnit s₁.units unit.id fun u =>
                  { u with nextAvailableTick := tick + costs.move } }
          | none =>
            .ok { s with
              units := updateUnit s.units unit.id fun u =>
                { u with nextAvailableTick := tick + costs.wait } }

/-- The `(a, b) => a.sourceId - b.sourceId || a.id - b.id` impact order. -/
def projLe (a b : ProjectileState) : Prop :=
  a.sourceId < b.sourceId ∨ (a.sourceId = b.sourceId ∧ a.id ≤ b.id)

instance : DecidableRel projLe := fun a b =>
  inferInstanceAs (Decidable (a.sourceId < b.sourceId ∨
    (a.sourceId = b.sourceId ∧ a.id ≤ b.id)))

instance : IsTotal ProjectileState projLe :=
  ⟨fun a b => by unfold projLe; omega⟩

instance : IsTrans ProjectileState projLe :=
  ⟨fun a b c h₁ h₂ => by unfold projLe at *; omega⟩

/-- The ascending-id order on input units used for spawning. -/
def unitIdLe (a b : UnitInput) : Prop := a.id ≤ b.id

instance : DecidableRel unitIdLe := fun a b => Nat.decLe a.id b.id

instance : IsTotal UnitInput unitIdLe := ⟨fun a b => Nat.le_total a.id b.id⟩

instance : IsTrans UnitInput unitIdLe := ⟨fun _ _ _ => Nat.le_trans⟩

/-- `[...input.units].sort((a, b) => a.id - b.id)`. -/
def sortedUnits (input : BattleInput) : List UnitInput :=
  input.units.insertionSort unitIdLe

/-- The `unitOrder` array captured once at battle start. -/
def unitOrder (input : BattleInput) : List Nat :=
  (sortedUnits input).map (·.id)

/-- The spawn record built for one input unit. -/
def mkUnitState (u : UnitInput) : UnitState :=
  ⟨u.id, u.side, u.type, u.size, u.position, true, 0⟩

/-- One step of the spawn loop: register the unit, add it to its tile and
emit its spawn event. -/
def spawnStep (s : SimState) (u : UnitInput) : SimState :=
  { s with
    units := s.units ++ [mkUnitState u],
    tileIndex := addUnitToTile s.tileIndex u.id u.position,
    events := s.events ++ [.unitSpawned 0 u.id u] }

/-- The state of `resolveBattle` just before its main loop: the battle-init
event, then one spawn per unit in ascending id order. -/
def initState (input : BattleInput) : SimState :=
  (sortedUnits input).foldl spawnStep
    ⟨[], [], [], [.battleInit 0 0 input], rngSeed input.seed, 0, 0, false⟩

/-- Either the state carried to the next tick or the finished output. -/
abbrev TickOutcome := SimState ⊕ ResolveOutput

/-- One full iteration of the main loop at a given tick: impact phase,
action phase, activity bookkeeping, then the termination checks in source
order (elimination, time limit, stall). -/
def runTick (input : BattleInput) (tick : Nat) (s : SimState) :
    Except String TickOutcome := do
  let s₀ : SimState := { s with activityThisTick := false }
  let impacts := (s₀.projectiles.filter fun p =>
    decide (p.impactTick = tick)).insertionSort projLe
  let s₁ := impacts.foldl (impactOne input tick) s₀
  let s₂ ← (unitOrder input).foldlM (unitAct input tick) s₁
  let s₃ := if s₂.activityThisTick then { s₂ with lastActivityTick := tick } else s₂
  let redLeft := (getFriendlyUnits s₃.units .Red).length
  let blueLeft := (getFriendlyUnits s₃.units .Blue).length
  if redLeft = 0 ∨ blueLeft = 0 then
    let winner : Winner :=
      if redLeft = 0 ∧ blueLeft = 0 then .Draw else if redLeft = 0 then .Blue else .Red
    let result : BattleResult := ⟨winner, .eliminated, tick, redLeft, blueLeft⟩
    return .inr ⟨input, s₃.events ++ [.battleEnded tick 0 result], result⟩
  else if input.timeLimit ≤ tick then
    let result : BattleResult := ⟨.Draw, .timeLimitReached, tick, redLeft, blueLeft⟩
    return .inr ⟨input, s₃.events ++ [.battleEnded tick 0 result], result⟩
  else if STALL_TICKS ≤ tick - s₃.lastActivityTick then
    let result : BattleResult := ⟨.Draw, .stalled, tick, redLeft, blueLeft⟩
    return .inr ⟨input, s₃.events ++ [.battleEnded tick 0 result], result⟩
  else
    return .inl s₃

/-- The `for (tick = 0; tick <= timeLimit; ...)` loop.  The fuel argument is
`timeLimit + 1 - tick`, so fuel 0 is the loop's normal exit (only reachable
when no iteration returned, i.e. never for natural `timeLimit`, since the
time-limit check fires at `tick = timeLimit`); the guard check mirrors
`loopGuard`, which equals `tick + 1` in the iteration for `tick`. -/
def runLoop (input : BattleInput) : Nat → Nat → SimState → Except String ResolveOutput
  | 0, _, s =>
    let finalRed := (getFriendlyUnits s.units .Red).length
    let finalBlue := (getFriendlyUnits s.units .Blue).length
    let result : BattleResult := ⟨.Draw, .timeLimitReached, input.timeLimit, finalRed, finalBlue⟩
    .ok ⟨input, s.events ++ [.battleEnded input.timeLimit 0 result], result⟩
  | fuel + 1, tick, s =>
    if MAX_LOOP_GUARD < tick + 1 then
      .error "Loop guard tripped. Check for infinite loop conditions."
    else
      match runTick input tick s with
      | .error e => .error e
      | .ok (.inl s') => runLoop input fuel (tick + 1) s'
      | .ok (.inr out) => .ok out

/-- `resolveBattle` in `resolver/logic.ts`. -/
def resolveBattle (input : BattleInput) : Except String ResolveOutput :=
  match validateInput input with
  | .error e => .error e
  | .ok _ => runLoop input (input.timeLimit + 1) 0 (initState input)

/-- `applyRemoval` seen as a whole-state transformer. -/
def removeState (s : SimState) (u : UnitState) : SimState :=
  let r := applyRemoval u s.tileIndex s.units
  { s with tileIndex := r.1, units := r.2 }

/-- The states the simulation passes through: the post-spawn state, and
everything obtainable from a reachable state by one projectile impact, one
unit action, one removal, or the per-tick activity bookkeeping.  The step
parameters are unconstrained, so this covers (a superset of) every
intermediate state of `resolveBattle`'s loop, including the states between
the individual removals of one fireball impact. -/
inductive Reach (input : BattleInput) : SimState → Prop where
  | init : Reach input (initState input)
  | impact (tick : Nat) (p : ProjectileState) {s : SimState} :
      Reach input s → Reach input (impactOne input tick s p)
  | act (tick id : Nat) {s s' : SimState} :
      Reach input s → unitAct input tick s id = .ok s' → Reach input s'
  | removal (u : UnitState) {s : SimState} :
      Reach input s → Reach input (removeState s u)
  | book (b : Bool) (t : Nat) {s : SimState} :
      Reach input s →
      Reach input { s with activityThisTick := b, lastActivityTick := t }

/-! ### Definitions supporting the claim statements -/

deriving instance DecidableEq for Except

/-- Overwriting of the alive flag of the unit registered under an id. -/
def setAlive (units : List UnitState) (id : Nat) (b : Bool) : List UnitState :=
  updateUnit units id fun v => { v with alive := b }

/-- The events of a resolution outcome (none on failure: a thrown error
discards the local event array). -/
def eventsOf : Except String ResolveOutput → List BattleEvent
  | .ok o => o.events
  | .error _ => []

/-- The spec's description of the tile-entry check (claim C5), as a
predicate: in bounds, and the tile is empty of living units or all living
occupants share the entrant's side and both caps still hold with it added. -/
abbrev canEnterSpec (unit : UnitState) (ti : TileIndex) (units : List UnitState)
    (pos : Position) (input : BattleInput) : Prop :=
  isWithin pos input = true ∧
    (livingOf units (lookupTile ti pos) = [] ∨
      ((∀ u ∈ livingOf units (lookupTile ti pos), u.side = unit.side) ∧
        (livingOf units (lookupTile ti pos)).length + 1 ≤ input.limits.maxUnitsPerTile ∧
        ((livingOf units (lookupTile ti pos)).map (·.size)).sum + unit.size ≤
          input.limits.maxSizePerTile))

/-- The occupancy conditions on one tile's living occupants: one side only,
the count cap and the size cap. -/
abbrev TileOk (input : BattleInput) (l : List UnitState) : Prop :=
  (∀ u ∈ l, ∀ v ∈ l, u.side = v.side) ∧
  l.length ≤ input.limits.maxUnitsPerTile ∧
  (l.map (·.size)).sum ≤ input.limits.maxSizePerTile

/-- The tile occupancy invariant of claim C2 for a simulation state: every
tile of the index satisfies `TileOk` on its living occupants. -/
abbrev TileInvariant (input : BattleInput) (s : SimState) : Prop :=
  ∀ e ∈ s.tileIndex, TileOk input (livingOf s.units e.2)

/-- Key uniqueness of the tile index (holds by construction: `setTile`
replaces in place or appends a genuinely fresh key). -/
abbrev KeysOk (ti : TileIndex) : Prop := (ti.map (·.1)).Nodup

/-- Membership coherence of the tile index: an id recorded on a tile names
a registered unit whose recorded position is that tile. -/
abbrev TileWf (units : List UnitState) (ti : TileIndex) : Prop :=
  ∀ e ∈ ti, ∀ id ∈ e.2, ∃ u, findUnit units id = some u ∧ u.position = e.1

/-- All registered units fit the size cap on their own. -/
abbrev SizeBound (input : BattleInput) (units : List UnitState) : Prop :=
  ∀ u ∈ units, u.size ≤ input.limits.maxSizePerTile

/-- The inductive invariant used to prove claim C2: bookkeeping coherence
plus the tile occupancy invariant itself. -/
abbrev SimInv (input : BattleInput) (s : SimState) : Prop :=
  KeysOk s.tileIndex ∧ TileWf s.units s.tileIndex ∧ SizeBound input s.units ∧
    TileInvariant input s

/-- The side condition of the corrected claim C2/C7: a lone unit on a tile
already satisfies both caps (validation never checks single-occupant
tiles). -/
abbrev SingletonSafe (input : BattleInput) : Prop :=
  1 ≤ input.limits.maxUnitsPerTile ∧
    ∀ u ∈ input.units, u.size ≤ input.limits.maxSizePerTile

/-- The event order asserted by claim C4 as stated: non-decreasing tick,
and non-decreasing seq within one tick. -/
abbrev specEventLE (e₁ e₂ : BattleEvent) : Prop :=
  e₁.tick < e₂.tick ∨ (e₁.tick = e₂.tick ∧ e₁.seq ≤ e₂.seq)

instance : DecidableRel specEventLE := fun a b => inferInstance

/-- The emission phase of an event within its tick: 0 for the tick-0 setup
events, 1 for impact-phase events (impacts and their removals), 2 for
action-phase events (melee, firing, movement and melee removals), 3 for the
terminal event. -/
def rankOf : BattleEvent → Nat
  | .battleInit .. => 0
  | .unitSpawned .. => 0
  | .projectileImpacted .. => 1
  | .unitRemoved _ _ _ _ c _ => match c with | .melee => 2 | _ => 1
  | .meleeAttackResolved .. => 2
  | .projectileFired .. => 2
  | .unitMoved .. => 2
  | .battleEnded .. => 3

/-- The (tick, phase, seq) emission key of an event. -/
def evKey (e : BattleEvent) : Nat × Nat × Nat := (e.tick, rankOf e, e.seq)

/-- Lexicographic order on emission keys. -/
abbrev keyLE (a b : Nat × Nat × Nat) : Prop :=
  a.1 < b.1 ∨ (a.1 = b.1 ∧ (a.2.1 < b.2.1 ∨ (a.2.1 = b.2.1 ∧ a.2.2 ≤ b.2.2)))

/-- Strict lexicographic order on emission keys. -/
abbrev keyLT (a b : Nat × Nat × Nat) : Prop :=
  a.1 < b.1 ∨ (a.1 = b.1 ∧ (a.2.1 < b.2.1 ∨ (a.2.1 = b.2.1 ∧ a.2.2 < b.2.2)))

/-- The corrected event order of claim C4: lexicographic in
(tick, phase, seq). -/
abbrev evLE (e₁ e₂ : BattleEvent) : Prop := keyLE (evKey e₁) (evKey e₂)

instance : DecidableRel evLE := fun a b => inferInstance

/-- All events of a list have keys at most `k`. -/
abbrev EvBounded (evs : List BattleEvent) (k : Nat × Nat × Nat) : Prop :=
  ∀ e ∈ evs, keyLE (evKey e) k

/-- All events of a list have keys strictly below `k`. -/
abbrev EvBoundedLT (evs : List BattleEvent) (k : Nat × Nat × Nat) : Prop :=
  ∀ e ∈ evs, keyLT (evKey e) k

/-- Structural facts about every emitted event: setup-phase events occur
only at tick 0, and terminal events carry seq 0. -/
abbrev EvTagged (evs : List BattleEvent) : Prop :=
  ∀ e ∈ evs, (rankOf e = 0 → e.tick = 0) ∧ (rankOf e = 3 → e.seq = 0)

/-- Claim C7's first four rejection conditions, read off the input. -/
abbrev hasDuplicateId (input : BattleInput) : Prop := ¬ (input.units.map (·.id)).Nodup

abbrev hasWrongSize (input : BattleInput) : Prop :=
  ∃ u ∈ input.units, UNIT_SIZES u.type ≠ u.size

abbrev hasOutOfGrid (input : BattleInput) : Prop :=
  ∃ u ∈ input.units, isWithin u.position input = false

abbrev hasOutOfZone (input : BattleInput) : Prop :=
  ∃ u ∈ input.units, u.position.x < (DEPLOYMENT_COLUMNS u.side).start ∨
    (DEPLOYMENT_COLUMNS u.side).stop < u.position.x

/-- The input units placed on a given starting tile. -/
abbrev unitsAt (input : BattleInput) (p : Position) : List UnitInput :=
  input.units.filter fun u => decide (u.position = p)

/-- Claim C7's tile clause as stated: some starting tile's combined units
mix sides or break the count or size cap. -/
abbrev hasTileViolation (input : BattleInput) : Prop :=
  ∃ u ∈ input.units,
    (∃ v ∈ unitsAt input u.position, v.side ≠ u.side) ∨
    input.limits.maxUnitsPerTile < (unitsAt input u.position).length ∨
    input.limits.maxSizePerTile < ((unitsAt input u.position).map (·.size)).sum

/-- The corrected tile clause: as `hasTileViolation`, but only for tiles
holding at least two units (validation never checks a lone occupant). -/
abbrev hasTileViolationMulti (input : BattleInput) : Prop :=
  ∃ u ∈ input.units,
    2 ≤ (unitsAt input u.position).length ∧
    ((∃ v ∈ unitsAt input u.position, v.side ≠ u.side) ∨
      input.limits.maxUnitsPerTile < (unitsAt input u.position).length ∨
      input.limits.maxSizePerTile < ((unitsAt input u.position).map (·.size)).sum)

/-- Claim C7's rejection conditions as stated. -/
abbrev SpecViolation (input : BattleInput) : Prop :=
  hasDuplicateId input ∨ hasWrongSize input ∨ hasOutOfGrid input ∨
    hasOutOfZone input ∨ hasTileViolation input

/-- The corrected rejection conditions. -/
abbrev SpecViolationMulti (input : BattleInput) : Prop :=
  hasDuplicateId input ∨ hasWrongSize input ∨ hasOutOfGrid input ∨
    hasOutOfZone input ∨ hasTileViolationMulti input

/-! ### Concrete inputs and states used by witnesses and counterexamples -/

/-- Claim C8's scenario exactly as stated: one Red Infantry at (0, 0), one
Blue Infantry at (1, 0) (12 × 8 grid with the default caps, seed 0, whose
first draw 1013904223 / 2^32 is below 0.5). -/
def c8origInput : BattleInput :=
  ⟨⟨12, 8⟩, ⟨4, 10⟩, 0, 2000,
    [⟨1, .Red, .Infantry, 2, ⟨0, 0⟩⟩, ⟨2, .Blue, .Infantry, 2, ⟨1, 0⟩⟩]⟩

/-- The nearest deployable variant of claim C8's scenario: the same two
units moved inside their deployment columns, at (2, 0) and (9, 0) on a
10 × 1 grid. -/
def c8amendedInput : BattleInput :=
  ⟨⟨10, 1⟩, ⟨4, 10⟩, 0, 100,
    [⟨1, .Red, .Infantry, 2, ⟨2, 0⟩⟩, ⟨2, .Blue, .Infantry, 2, ⟨9, 0⟩⟩]⟩

/-- The event log `resolveBattle` produces on `c8amendedInput`: three
mutual-approach moves per side, then the first melee roll hits at tick 18
and ends the battle. -/
def c8events : List BattleEvent :=
  [.battleInit 0 0 c8amendedInput,
   .unitSpawned 0 1 ⟨1, .Red, .Infantry, 2, ⟨2, 0⟩⟩,
   .unitSpawned 0 2 ⟨2, .Blue, .Infantry, 2, ⟨9, 0⟩⟩,
   .unitMoved 0 1 1 ⟨2, 0⟩ ⟨3, 0⟩,
   .unitMoved 0 2 2 ⟨9, 0⟩ ⟨8, 0⟩,
   .unitMoved 6 1 1 ⟨3, 0⟩ ⟨4, 0⟩,
   .unitMoved 6 2 2 ⟨8, 0⟩ ⟨7, 0⟩,
   .unitMoved 12 1 1 ⟨4, 0⟩ ⟨5, 0⟩,
   .unitMoved 12 2 2 ⟨7, 0⟩ ⟨6, 0⟩,
   .meleeAttackResolved 18 1 1 2 true,
   .unitRemoved 18 1 2 .Blue .melee 1,
   .battleEnded 18 0 ⟨.Red, .eliminated, 18, 1, 0⟩]

/-- The result `resolveBattle` produces on `c8amendedInput`. -/
def c8result : BattleResult := ⟨.Red, .eliminated, 18, 1, 0⟩

/-- A minimal valid input: one lone Red Infantry (the opposing side is
empty, so the battle ends at tick 0 by elimination). -/
def soloRedInput : BattleInput :=
  ⟨⟨10, 1⟩, ⟨4, 10⟩, 0, 5, [⟨1, .Red, .Infantry, 2, ⟨0, 0⟩⟩]⟩

/-- A valid input whose lone unit breaks the size cap on its own tile:
`maxSizePerTile` is 1 but the Infantry has size 2; validation never checks
single-occupant tiles, so this passes. -/
def tinyCapViolInput : BattleInput :=
  ⟨⟨10, 1⟩, ⟨4, 1⟩, 0, 5, [⟨1, .Red, .Infantry, 2, ⟨0, 0⟩⟩]⟩

/-- An input with a duplicate unit id, for the C7 witness. -/
def dupIdInput : BattleInput :=
  ⟨⟨10, 1⟩, ⟨4, 10⟩, 0, 5,
    [⟨1, .Red, .Infantry, 2, ⟨0, 0⟩⟩, ⟨1, .Red, .Infantry, 2, ⟨1, 0⟩⟩]⟩

/-- The validated input on which the iteration ceiling trips (claim C3):
two Infantry 1708 tiles apart on a 10 × 1700 grid with time limit 5500.
Both march toward each other every 6 ticks (so the stall check never
fires), first contact would occur past tick 5100, and the loop guard
(`loopGuard > 5000`) throws at tick 5000 before any terminal event. -/
def c3FailingInput : BattleInput :=
  ⟨⟨10, 1700⟩, ⟨4, 10⟩, 0, 5500,
    [⟨1, .Red, .Infantry, 2, ⟨0, 0⟩⟩, ⟨2, .Blue, .Infantry, 2, ⟨9, 1699⟩⟩]⟩

/-- The ready Red Infantry of the C6 witness state. -/
def c6Red : UnitState := ⟨1, .Red, .Infantry, 2, ⟨0, 0⟩, true, 0⟩

/-- The adjacent living Blue Infantry of the C6 witness state. -/
def c6Blue : UnitState := ⟨2, .Blue, .Infantry, 2, ⟨1, 0⟩, true, 0⟩

/-- A handcrafted mid-battle state for the C6 witness: a ready Red Infantry
at (0, 0) adjacent to a living Blue Infantry at (1, 0). -/
def c6State : SimState :=
  ⟨[c6Red, c6Blue], [(⟨0, 0⟩, [1]), (⟨1, 0⟩, [2])], [], [], 0, 0, 0, false⟩

/-- A handcrafted mid-battle state for the C9 witness: a Blue Archer
(id 7, still alive here; the witness kills it via `setAlive`) whose arrow
is in flight toward the tile of a living Red Infantry. -/
def c9State : SimState :=
  ⟨[⟨7, .Blue, .Archer, 2, ⟨5, 0⟩, true, 14⟩, ⟨3, .Red, .Infantry, 2, ⟨0, 0⟩, true, 0⟩],
    [(⟨5, 0⟩, [7]), (⟨0, 0⟩, [3])],
    [⟨0, .Arrow, 7, .Blue, ⟨5, 0⟩, ⟨0, 0⟩, 0, 10⟩], [], 0, 1, 0, false⟩

/-- The arrow in flight in `c9State`. -/
def c9Proj : ProjectileState := ⟨0, .Arrow, 7, .Blue, ⟨5, 0⟩, ⟨0, 0⟩, 0, 10⟩

/-- A handcrafted state for the C10 witness: an arrow in flight toward a
tile whose only occupant shares the arrow's side, so the impact finds no
living enemy occupant. -/
def c10State : SimState :=
  ⟨[⟨4, .Blue, .Infantry, 2, ⟨0, 0⟩, true, 0⟩],
    [(⟨0, 0⟩, [4])],
    [⟨0, .Arrow, 9, .Blue, ⟨5, 0⟩, ⟨0, 0⟩, 0, 10⟩], [], 77, 1, 0, false⟩

/-- The arrow in flight in `c10State`. -/
def c10Proj : ProjectileState := ⟨0, .Arrow, 9, .Blue, ⟨5, 0⟩, ⟨0, 0⟩, 0, 10⟩

/-! ### Theorems -/

/-- C1: for every battle input that passes validation, two invocations of
`resolveBattle` on the same input value produce equal outputs — the
resolution is a pure function of the input value alone (the RNG is seeded
from the input and no other source of variation exists in the embedding,
mirroring the source's freedom from ambient state), so equal inputs give
element-for-element equal event logs and equal results. -/
theorem C1_determinism (input₁ input₂ : BattleInput)
    (hval : validateInput input₁ = .ok ()) (heq : input₁ = input₂) :
    resolveBattle input₁ = resolveBattle input₂ := by
  rw [heq]

/-- Witness for C1 at a concrete validated input. -/
theorem C1_determinism_witness :
    resolveBattle soloRedInput = resolveBattle soloRedInput :=
  C1_determinism soloRedInput soloRedInput (by decide) rfl

/-- C3 (supporting theorem for the code bug): the input on which the
iteration ceiling trips does pass validation — `validateInput` never
examines `timeLimit`, so nothing stops a validated battle from needing more
than `MAX_LOOP_GUARD` iterations, and on `c3FailingInput` the loop guard
throws at tick 5000 before any terminal event is emitted. -/
theorem C3_failing_input_validates : validateInput c3FailingInput = .ok () := by
  decide

/-- C8 counterexample: the scenario exactly as the claim states it — Blue
Infantry at (1, 0) — is rejected by validation (column 1 is outside Blue's
deployment columns 9–11), so `resolveBattle` produces an error and none of
the claimed events. -/
theorem C8_counterexample :
    resolveBattle c8origInput =
      .error "Unit 2 placed outside Blue deployment zone." := by
  decide

/-- C8 as amended: with the two Infantry moved to the nearest deployable
positions (2, 0) and (9, 0) (seed 0, whose relevant draw is below 0.5), the
sides close the 7-tile gap with three moves each and the battle produces a
`MeleeAttackResolved` event with hit = true, followed by a `UnitRemoved`
event with cause melee and a `BattleEnded` event with winner Red and reason
eliminated, all at tick 18 (three move rounds of 6 ticks, then the first
attack; the attack resolves at the tick it is rolled, not one attack-cost
later). -/
theorem C8_amended_scenario :
    resolveBattle c8amendedInput = .ok ⟨c8amendedInput, c8events, c8result⟩ := by
  decide

/-- C4 counterexample: on a validated input (a lone Red Infantry) the log
ends with the tick-0 spawn of unit 1 (seq 1) directly followed by the
terminal event (seq 0), two consecutive events with equal tick and strictly
decreasing seq, so the claimed (tick, seq) ordering fails. -/
theorem C4_counterexample :
    eventsOf (resolveBattle soloRedInput) =
      [.battleInit 0 0 soloRedInput,
       .unitSpawned 0 1 ⟨1, .Red, .Infantry, 2, ⟨0, 0⟩⟩,
       .battleEnded 0 0 ⟨.Red, .eliminated, 0, 1, 0⟩] ∧
    ¬ specEventLE (.unitSpawned 0 1 ⟨1, .Red, .Infantry, 2, ⟨0, 0⟩⟩)
        (.battleEnded 0 0 ⟨.Red, .eliminated, 0, 1, 0⟩) := by
  decide

/-- C2 counterexample: `tinyCapViolInput` passes validation (its only tile
holds a single unit, and validation checks the caps only from a tile's
second unit on), yet already the post-spawn state — a reachable state —
violates the size cap: the lone Infantry of size 2 sits on a tile with
`maxSizePerTile` 1. -/
theorem C2_counterexample :
    validateInput tinyCapViolInput = .ok () ∧
      Reach tinyCapViolInput (initState tinyCapViolInput) ∧
      ¬ TileInvariant tinyCapViolInput (initState tinyCapViolInput) :=
  ⟨by decide, Reach.init, by decide⟩

/-- C7 counterexample: `tinyCapViolInput` contains a starting tile whose
combined units violate the size cap (one Infantry of size 2 against
`maxSizePerTile` 1), yet `resolveBattle` succeeds and produces an event
log, because validation never checks the caps for a tile holding a single
unit. -/
theorem C7_counterexample :
    SpecViolation tinyCapViolInput ∧
      (resolveBattle tinyCapViolInput).isOk = true := by
  decide


/-! ### Supporting lemmas -/

theorem findUnit_map_of_id (units : List UnitState) (g : UnitState → UnitState)
    (hg : ∀ v, (g v).id = v.id) (id : Nat) :
    findUnit (units.map g) id = (findUnit units id).map g := by
  induction units with
  | nil => rfl
  | cons u rest ih =>
    simp only [List.map_cons, findUnit, List.find?]
    rw [hg u]
    by_cases h : u.id = id
    · simp [h]
    · simp only [h, decide_eq_false h]
      exact ih

theorem findUnit_update (units : List UnitState) (id : Nat) (f : UnitState → UnitState)
    (hf : ∀ v, (f v).id = v.id) (id' : Nat) :
    findUnit (updateUnit units id f) id' =
      (findUnit units id').map fun v => if v.id = id then f v else v := by
  apply findUnit_map_of_id
  intro v
  by_cases h : v.id = id
  · simp [h, hf]
  · simp [h]

theorem findUnit_props {units : List UnitState} {id : Nat} {u : UnitState}
    (h : findUnit units id = some u) : u ∈ units ∧ u.id = id := by
  have h' : units.find? (fun w => decide (w.id = id)) = some u := h
  refine ⟨List.mem_of_find?_eq_some h', of_decide_eq_true ?_⟩
  exact @List.find?_some UnitState (fun w => decide (w.id = id)) u units h'

theorem findUnit_setAlive (units : List UnitState) (sid : Nat) (b : Bool) (id' : Nat) :
    findUnit (setAlive units sid b) id' =
      (findUnit units id').map fun v => if v.id = sid then { v with alive := b } else v :=
  findUnit_update units sid (fun v => { v with alive := b }) (fun _ => rfl) id'

theorem livingEnemy_setAlive (units : List UnitState) (sid : Nat) (b : Bool)
    (srcSide : Side) (hside : ∀ u ∈ units, u.id = sid → u.side = srcSide)
    (ids : List Nat) :
    ((ids.filterMap (findUnit (setAlive units sid b))).filter
        fun u => u.alive && decide (u.side ≠ srcSide)) =
      ((ids.filterMap (findUnit units)).filter
        fun u => u.alive && decide (u.side ≠ srcSide)) := by
  induction ids with
  | nil => rfl
  | cons id rest ih =>
    simp only [List.filterMap_cons]
    rw [findUnit_setAlive units sid b id]
    cases h : findUnit units id with
    | none => exact ih
    | some v =>
      simp only [Option.map_some']
      by_cases hv : v.id = sid
      · have hvs : v.side = srcSide := hside v (findUnit_props h).1 hv
        simp only [if_pos hv, List.filter_cons]
        have h1 : (({ v with alive := b } : UnitState).alive &&
            decide (({ v with alive := b } : UnitState).side ≠ srcSide)) = false := by
          simp [hvs]
        have h2 : (v.alive && decide (v.side ≠ srcSide)) = false := by simp [hvs]
        rw [h1, h2]
        simp only [Bool.false_eq_true, if_false]
        exact ih
      · simp only [if_neg hv, List.filter_cons]
        cases hp : (v.alive && decide (v.side ≠ srcSide)) <;> simp only [ih]

theorem setAlive_kill_comm (units : List UnitState) (sid tid : Nat) (b : Bool)
    (hne : tid ≠ sid) :
    updateUnit (setAlive units sid b) tid (fun v => { v with alive := false }) =
      setAlive (updateUnit units tid fun v => { v with alive := false }) sid b := by
  unfold setAlive updateUnit
  rw [List.map_map, List.map_map]
  apply List.map_congr_left
  intro u _
  simp only [Function.comp]
  by_cases h1 : u.id = sid <;> by_cases h2 : u.id = tid
  · exact absurd (h2.symm.trans h1) hne
  · simp [h1, h2, hne, Ne.symm hne]
  · simp [h1, h2, hne, Ne.symm hne]
  · simp [h1, h2, hne, Ne.symm hne]

theorem applyRemoval_setAlive (t : UnitState) (ti : TileIndex)
    (units : List UnitState) (sid : Nat) (b : Bool) (hne : t.id ≠ sid) :
    applyRemoval t ti (setAlive units sid b) =
      ((applyRemoval t ti units).1, setAlive (applyRemoval t ti units).2 sid b) := by
  unfold applyRemoval
  cases h : ti.find? fun e => decide (e.1 = t.position) <;>
    simp only [h, setAlive_kill_comm units sid t.id b hne]

theorem fireballStep_setAlive (tick srcId : Nat) (s : SimState) (t : UnitState)
    (sid : Nat) (b : Bool) (hne : t.id ≠ sid) :
    fireballStep tick srcId { s with units := setAlive s.units sid b } t =
      { fireballStep tick srcId s t with
        units := setAlive (fireballStep tick srcId s t).units sid b } := by
  unfold fireballStep
  dsimp only
  rw [applyRemoval_setAlive t s.tileIndex s.units sid b hne]

theorem fireFold_setAlive (tick srcId : Nat) (sid : Nat) (b : Bool)
    (L : List UnitState) (hL : ∀ t ∈ L, t.id ≠ sid) (s : SimState) :
    L.foldl (fireballStep tick srcId) { s with units := setAlive s.units sid b } =
      { L.foldl (fireballStep tick srcId) s with
        units := setAlive (L.foldl (fireballStep tick srcId) s).units sid b } := by
  induction L generalizing s with
  | nil => rfl
  | cons t rest ih =>
    simp only [List.foldl_cons]
    rw [fireballStep_setAlive tick srcId s t sid b (hL t (by simp))]
    exact ih (fun x hx => hL x (by simp [hx])) (fireballStep tick srcId s t)

theorem get?_append_len {α : Type} (l t : List α) (x : α) :
    (l ++ x :: t).get? l.length = some x := by
  induction l with
  | nil => rfl
  | cons a l ih => simpa using ih

theorem fireFold_events (tick srcId : Nat) (L : List UnitState) (s : SimState) :
    ∃ R, (L.foldl (fireballStep tick srcId) s).events = s.events ++ R ∧
      ∀ e ∈ R, evKey e = (tick, 1, srcId) := by
  induction L generalizing s with
  | nil => exact ⟨[], by simp, by simp⟩
  | cons t rest ih =>
    obtain ⟨R, hR, hk⟩ := ih (fireballStep tick srcId s t)
    refine ⟨.unitRemoved tick srcId t.id t.side .fireball srcId :: R, ?_, ?_⟩
    · rw [List.foldl_cons, hR]
      simp [fireballStep]
    · intro e he
      rcases List.mem_cons.mp he with h | h
      · subst h; rfl
      · exact hk e h

theorem impactOne_events (input : BattleInput) (tick : Nat) (s : SimState)
    (p : ProjectileState) :
    ∃ batch,
      (impactOne input tick s p).events =
        s.events ++
          .projectileImpacted tick p.sourceId p.sourceId p.sourceSide p.kind p.target
            p.impactTick :: batch ∧
      ∀ e ∈ batch, evKey e = (tick, 1, p.sourceId) := by
  unfold impactOne
  dsimp only
  set occ := (getTileUnits s.tileIndex s.units p.target).filter
    (fun u => u.alive && decide (u.side ≠ p.sourceSide)) with hocc
  by_cases he : occ.isEmpty
  · rw [if_pos he]
    exact ⟨[], by simp, by simp⟩
  · rw [if_neg he]
    cases p.kind with
    | Arrow =>
      dsimp only
      cases hget : occ.get? (rngScale (rngNext s.rngState) occ.length) with
      | none => exact ⟨[], by simp, by simp⟩
      | some target =>
        refine ⟨[.unitRemoved tick p.sourceId target.id target.side .arrow p.sourceId],
          ?_, ?_⟩
        · simp
        · intro e he'
          rcases List.mem_singleton.mp he' with h
          subst h; rfl
    | Fireball =>
      dsimp only
      obtain ⟨R, hR, hk⟩ := fireFold_events tick p.sourceId (occ.insertionSort stateIdLe)
        { s with
          events := s.events ++
            [.projectileImpacted tick p.sourceId p.sourceId p.sourceSide .Fireball p.target
              p.impactTick],
          activityThisTick := true }
      refine ⟨R, ?_, hk⟩
      rw [hR]
      simp


/-- C9: a scheduled projectile resolves identically whether or not its
source unit is still alive.  Changing the alive flag of the unit registered
under the projectile's source id (in particular, killing it) commutes with
the whole impact step — the `ProjectileImpacted` event is emitted with the
projectile's frozen source id and side either way (second conjunct: it sits
right after the prior events), the same occupants of the frozen target tile
are removed, and the same RNG draws are consumed; the source's death never
cancels or alters a projectile in flight.  The hypothesis only ties the
registered unit's side to the projectile's frozen side, as holds for every
projectile the simulation fires. -/
theorem C9_projectile_outlives_source (input : BattleInput) (tick : Nat)
    (s : SimState) (p : ProjectileState) (b : Bool)
    (hside : ∀ u ∈ s.units, u.id = p.sourceId → u.side = p.sourceSide) :
    impactOne input tick { s with units := setAlive s.units p.sourceId b } p =
      { impactOne input tick s p with
        units := setAlive (impactOne input tick s p).units p.sourceId b } ∧
    (impactOne input tick s p).events.get? s.events.length =
      some (.projectileImpacted tick p.sourceId p.sourceId p.sourceSide p.kind p.target
        p.impactTick) := by
  constructor
  · unfold impactOne
    dsimp only
    rw [show (getTileUnits s.tileIndex (setAlive s.units p.sourceId b) p.target).filter
        (fun u => u.alive && decide (u.side ≠ p.sourceSide)) =
      (getTileUnits s.tileIndex s.units p.target).filter
        (fun u => u.alive && decide (u.side ≠ p.sourceSide)) from
      livingEnemy_setAlive s.units p.sourceId b p.sourceSide hside _]
    set occ := (getTileUnits s.tileIndex s.units p.target).filter
      (fun u => u.alive && decide (u.side ≠ p.sourceSide)) with hocc
    have hoccid : ∀ t ∈ occ, t.id ≠ p.sourceId := by
      intro t ht hid
      have h1 := List.mem_filter.mp ht
      have h2 : t ∈ s.units := by
        rcases List.mem_filterMap.mp h1.1 with ⟨a, _, hfa⟩
        exact (findUnit_props hfa).1
      have h3 : t.side ≠ p.sourceSide := by
        have := h1.2
        simp only [Bool.and_eq_true, decide_eq_true_eq] at this
        exact this.2
      exact h3 (hside t h2 hid)
    by_cases he : occ.isEmpty
    · simp only [if_pos he]
    · simp only [if_neg he]
      cases p.kind with
      | Arrow =>
        dsimp only
        cases hget : occ.get? (rngScale (rngNext s.rngState) occ.length) with
        | none => rfl
        | some target =>
          dsimp only
          have htmem : target ∈ occ := List.get?_mem hget
          rw [applyRemoval_setAlive target s.tileIndex s.units p.sourceId b
            (hoccid target htmem)]
      | Fireball =>
        dsimp only
        have hL : ∀ t ∈ occ.insertionSort stateIdLe, t.id ≠ p.sourceId := by
          intro t ht
          exact hoccid t ((List.perm_insertionSort stateIdLe occ).mem_iff.mp ht)
        exact fireFold_setAlive tick p.sourceId p.sourceId b _ hL
          { s with
            events := s.events ++
              [.projectileImpacted tick p.sourceId p.sourceId p.sourceSide .Fireball p.target
                p.impactTick],
            activityThisTick := true }
  · obtain ⟨batch, hb, -⟩ := impactOne_events input tick s p
    rw [hb]
    exact get?_append_len s.events batch _


/-! ### Claims C5, C6, C9, C10 -/

/-- C5: for every unit, tile index, unit table, position, and input, the
tile-entry check returns true if and only if the position is within grid
bounds and (the tile has no living occupants, or all living occupants share
the acting unit's side and the living-occupant count plus one is at most
`maxUnitsPerTile` and the living occupants' total size plus the acting
unit's size is at most `maxSizePerTile`).  The check mutates nothing: in
this embedding `canEnterTile` is a plain function returning `Bool`, exactly
because the source function only reads the tile index and unit table. -/
theorem C5_canEnter_iff (unit : UnitState) (ti : TileIndex) (units : List UnitState)
    (pos : Position) (input : BattleInput) :
    canEnterTile unit ti units pos input = true ↔ canEnterSpec unit ti units pos input := by
  have hl : livingOf units (lookupTile ti pos) =
      (getTileUnits ti units pos).filter (·.alive) := rfl
  unfold canEnterTile canEnterSpec
  rw [hl]
  by_cases hw : isWithin pos input = true
  · rw [hw]
    simp only [Bool.not_true, Bool.false_eq_true, if_false, true_and]
    set l := (getTileUnits ti units pos).filter (·.alive) with hldef
    by_cases he : l.isEmpty
    · rw [if_pos he]
      simp [List.isEmpty_iff.mp he]
    · rw [if_neg he]
      have hne : l ≠ [] := fun h => he (by simp [h])
      by_cases ha : l.any fun u => decide (u.side ≠ unit.side)
      · rw [if_pos ha]
        simp only [Bool.false_eq_true, false_iff]
        rintro (h | ⟨hside, -⟩)
        · exact hne h
        · rcases List.any_eq_true.mp ha with ⟨u, hu, hdec⟩
          exact (of_decide_eq_true hdec) (hside u hu)
      · rw [if_neg ha]
        have hall : ∀ u ∈ l, u.side = unit.side := by
          intro u hu
          by_contra hc
          exact ha (List.any_eq_true.mpr ⟨u, hu, decide_eq_true hc⟩)
        simp only [Bool.and_eq_true, decide_eq_true_eq]
        constructor
        · rintro ⟨h1, h2⟩
          exact Or.inr ⟨hall, h1, h2⟩
        · rintro (h | ⟨-, h1, h2⟩)
          · exact absurd h hne
          · exact ⟨h1, h2⟩
  · have hw' : isWithin pos input = false := by
      cases h : isWithin pos input
      · rfl
      · exact absurd h hw
    rw [hw']
    simp [hw']


theorem findAdjacentEnemy_spec {unit : UnitState} {units : List UnitState}
    {t : UnitState} (h : findAdjacentEnemy unit units = some t) :
    t ∈ adjacentEnemies unit units ∧ (∀ e ∈ adjacentEnemies unit units, t.id ≤ e.id) ∧
      t.alive = true := by
  unfold findAdjacentEnemy at h
  have hsort : List.Sorted stateIdLe ((adjacentEnemies unit units).insertionSort stateIdLe) :=
    List.sorted_insertionSort stateIdLe _
  have hperm : ((adjacentEnemies unit units).insertionSort stateIdLe).Perm
      (adjacentEnemies unit units) := List.perm_insertionSort stateIdLe _
  cases hl : (adjacentEnemies unit units).insertionSort stateIdLe with
  | nil => rw [hl] at h; exact absurd h (by simp)
  | cons a rest =>
    rw [hl] at h
    have hat : a = t := by simpa using h
    subst hat
    rw [hl] at hperm hsort
    have hmem : a ∈ adjacentEnemies unit units := hperm.mem_iff.mp (by simp)
    have hmin : ∀ e ∈ adjacentEnemies unit units, a.id ≤ e.id := by
      intro e he
      rcases List.mem_cons.mp (hperm.mem_iff.mpr he) with h1 | h2
      · rw [h1]
      · exact List.rel_of_sorted_cons hsort e h2
    have halv : a.alive = true := by
      have h1 := List.mem_filter.mp hmem
      have h2 := List.mem_filter.mp h1.1
      simp only [Bool.and_eq_true] at h2
      exact h2.2.1
    exact ⟨hmem, hmin, halv⟩

/-- C6: when a living, ready Infantry or Cavalry unit acts at a tick where
a living enemy sits at Manhattan distance exactly 1, it attacks the
lowest-id such enemy (first conjunct), and the action is exactly: one RNG
draw is consumed, a `MeleeAttackResolved` event is emitted with hit true
iff the draw is below 0.5 (below `2^31` as a raw LCG state), on a hit the
target is removed (`applyRemoval` clears its alive flag and revokes its
tile membership) with a `UnitRemoved` event of cause melee, and the
attacker's `nextAvailableTick` becomes the tick plus its attack cost
whether or not the roll hits. -/
theorem C6_melee_attack (input : BattleInput) (tick : Nat) (s : SimState)
    (unitId : Nat) (unit target : UnitState)
    (hfind : findUnit s.units unitId = some unit)
    (halive : unit.alive = true)
    (hready : unit.nextAvailableTick ≤ tick)
    (htype : unit.type = .Infantry ∨ unit.type = .Cavalry)
    (htarget : findAdjacentEnemy unit s.units = some target) :
    (target ∈ adjacentEnemies unit s.units ∧
      ∀ e ∈ adjacentEnemies unit s.units, target.id ≤ e.id) ∧
    unitAct input tick s unitId =
      .ok (if rngNext s.rngState < 2147483648 then
        { s with
          rngState := rngNext s.rngState,
          tileIndex := (applyRemoval target s.tileIndex s.units).1,
          units := updateUnit (applyRemoval target s.tileIndex s.units).2 unit.id
            fun u => { u with nextAvailableTick := tick + (UNIT_COSTS unit.type).attack },
          events := s.events ++
            [.meleeAttackResolved tick unit.id unit.id target.id true,
             .unitRemoved tick unit.id target.id target.side .melee unit.id],
          activityThisTick := true }
      else
        { s with
          rngState := rngNext s.rngState,
          units := updateUnit s.units unit.id
            fun u => { u with nextAvailableTick := tick + (UNIT_COSTS unit.type).attack },
          events := s.events ++ [.meleeAttackResolved tick unit.id unit.id target.id false],
          activityThisTick := true }) := by
  obtain ⟨hmem, hmin, halive_t⟩ := findAdjacentEnemy_spec htarget
  refine ⟨⟨hmem, hmin⟩, ?_⟩
  unfold unitAct
  rw [hfind]
  dsimp only
  have hcond : (!unit.alive || decide (tick < unit.nextAvailableTick)) = false := by
    simp [halive, Nat.not_lt.mpr hready]
  rw [hcond]
  simp only [Bool.false_eq_true, if_false]
  rw [if_pos htype, htarget]
  dsimp only
  by_cases hht : rngNext s.rngState < 2147483648
  · rw [if_pos hht]
    rw [if_pos (show decide (rngNext s.rngState < 2147483648) = true ∧ target.alive = true by
      simp [hht, halive_t])]
    dsimp only
    simp [hht, List.append_assoc]
  · rw [if_neg hht]
    rw [if_neg (show ¬(decide (rngNext s.rngState < 2147483648) = true ∧ target.alive = true) by
      simp [hht])]
    dsimp only
    simp [hht]


/-- C10: when a projectile's target tile holds no living unit of the side
opposing its source at impact time, the impact produces exactly one
`ProjectileImpacted` event and marks the tick as active (which feeds stall
detection), and nothing else changes: the equality of whole states shows no
`UnitRemoved` event is emitted, no RNG draw is consumed (`rngState` is
untouched), and units and tiles are unchanged. -/
theorem C10_impact_empty_tile (input : BattleInput) (tick : Nat) (s : SimState)
    (p : ProjectileState)
    (h : (getTileUnits s.tileIndex s.units p.target).filter
        (fun u => u.alive && decide (u.side ≠ p.sourceSide)) = []) :
    impactOne input tick s p =
      { s with
        events := s.events ++
          [.projectileImpacted tick p.sourceId p.sourceId p.sourceSide p.kind p.target
            p.impactTick],
        activityThisTick := true } := by
  unfold impactOne
  dsimp only
  rw [h]
  rfl

/-- Witness for C10: a concrete arrow impacting a tile whose only occupant
shares the arrow's side. -/
theorem C10_witness :
    impactOne soloRedInput 10 c10State c10Proj =
      { c10State with
        events := c10State.events ++
          [.projectileImpacted 10 c10Proj.sourceId c10Proj.sourceId c10Proj.sourceSide
            c10Proj.kind c10Proj.target c10Proj.impactTick],
        activityThisTick := true } :=
  C10_impact_empty_tile soloRedInput 10 c10State c10Proj (by decide)



/-- Witness for C6: the concrete adjacent pair of `c6State` at tick 0. -/
theorem C6_melee_attack_witness :
    (c6Blue ∈ adjacentEnemies c6Red c6State.units ∧
      ∀ e ∈ adjacentEnemies c6Red c6State.units, c6Blue.id ≤ e.id) ∧
    unitAct soloRedInput 0 c6State 1 =
      .ok (if rngNext c6State.rngState < 2147483648 then
        { c6State with
          rngState := rngNext c6State.rngState,
          tileIndex := (applyRemoval c6Blue c6State.tileIndex c6State.units).1,
          units := updateUnit (applyRemoval c6Blue c6State.tileIndex c6State.units).2
            c6Red.id
            fun u => { u with nextAvailableTick := 0 + (UNIT_COSTS c6Red.type).attack },
          events := c6State.events ++
            [.meleeAttackResolved 0 c6Red.id c6Red.id c6Blue.id true,
             .unitRemoved 0 c6Red.id c6Blue.id c6Blue.side .melee c6Red.id],
          activityThisTick := true }
      else
        { c6State with
          rngState := rngNext c6State.rngState,
          units := updateUnit c6State.units c6Red.id
            fun u => { u with nextAvailableTick := 0 + (UNIT_COSTS c6Red.type).attack },
          events := c6State.events ++
            [.meleeAttackResolved 0 c6Red.id c6Red.id c6Blue.id false],
          activityThisTick := true }) :=
  C6_melee_attack soloRedInput 0 c6State 1 c6Red c6Blue (by decide) (by decide)
    (by decide) (by decide) (by decide)

/-- Witness for C9: the arrow of `c9State` still resolves after its Blue
Archer source (id 7) is marked dead. -/
theorem C9_projectile_outlives_source_witness :
    impactOne soloRedInput 10
        { c9State with units := setAlive c9State.units c9Proj.sourceId false } c9Proj =
      { impactOne soloRedInput 10 c9State c9Proj with
        units := setAlive (impactOne soloRedInput 10 c9State c9Proj).units
          c9Proj.sourceId false } ∧
    (impactOne soloRedInput 10 c9State c9Proj).events.get? c9State.events.length =
      some (.projectileImpacted 10 c9Proj.sourceId c9Proj.sourceId c9Proj.sourceSide
        c9Proj.kind c9Proj.target c9Proj.impactTick) :=
  C9_projectile_outlives_source soloRedInput 10 c9State c9Proj false (by decide)


/-! ### Claim C7: validation characterization -/

theorem find?_mapSet {β : Type} (m : List (Position × β)) (p : Position) (b : β)
    (q : Position) :
    ((m.map fun e => if e.1 = p then (p, b) else e).find? fun e => decide (e.1 = q)) =
      if q = p then (m.find? fun e => decide (e.1 = p)).map fun _ => (p, b)
      else m.find? fun e => decide (e.1 = q) := by
  by_cases hqp : q = p
  · subst hqp
    rw [if_pos rfl]
    induction m with
    | nil => rfl
    | cons e rest ih =>
      rw [List.map_cons]
      by_cases hep : e.1 = q
      · rw [if_pos hep, List.find?_cons_of_pos _ (by simp),
            List.find?_cons_of_pos _ (by simp [hep])]
        simp
      · rw [if_neg hep, List.find?_cons_of_neg _ (by simp [hep]),
            List.find?_cons_of_neg _ (by simp [hep]), ih]
  · rw [if_neg hqp]
    induction m with
    | nil => rfl
    | cons e rest ih =>
      rw [List.map_cons]
      by_cases hep : e.1 = p
      · rw [if_pos hep,
            List.find?_cons_of_neg _ (by simp; exact fun h => hqp h.symm),
            List.find?_cons_of_neg _ (by simp [hep]; exact fun h => hqp h.symm),
            ih]
      · by_cases heq : e.1 = q
        · rw [if_neg hep, List.find?_cons_of_pos _ (by simp [heq]),
              List.find?_cons_of_pos _ (by simp [heq])]
        · rw [if_neg hep, List.find?_cons_of_neg _ (by simp [heq]),
              List.find?_cons_of_neg _ (by simp [heq]), ih]

theorem find?_entry_none {β : Type} {m : List (Position × β)} {p : Position}
    (hany : ¬(m.any fun e => decide (e.1 = p)) = true) :
    (m.find? fun e => decide (e.1 = p)) = none := by
  rw [List.find?_eq_none]
  intro x hx
  exact fun hc => hany (List.any_eq_true.mpr ⟨x, hx, hc⟩)

theorem lookupTile_set (ti : TileIndex) (p : Position) (l : List Nat) (q : Position) :
    lookupTile (setTile ti p l) q = if q = p then l else lookupTile ti q := by
  unfold setTile lookupTile
  by_cases hany : ti.any fun e => decide (e.1 = p)
  · rw [if_pos hany, find?_mapSet]
    by_cases hqp : q = p
    · rw [if_pos hqp, if_pos hqp]
      have hs : (ti.find? fun e => decide (e.1 = p)).isSome := by
        rw [List.find?_isSome]
        exact List.any_eq_true.mp hany
      cases hfind : ti.find? fun e => decide (e.1 = p) with
      | none => rw [hfind] at hs; simp at hs
      | some e' => simp
    · rw [if_neg hqp, if_neg hqp]
  · rw [if_neg hany, List.find?_append]
    by_cases hqp : q = p
    · subst hqp
      rw [find?_entry_none hany, if_pos rfl]
      simp [List.find?]
    · rw [if_neg hqp]
      have h1 : (([(p, l)] : TileIndex).find? fun e => decide (e.1 = q)) = none := by
        rw [List.find?_eq_none]
        intro x hx
        rw [List.mem_singleton] at hx
        subst hx
        simp only [decide_eq_true_eq]
        exact fun h => hqp h.symm
      rw [h1]
      cases ti.find? fun e => decide (e.1 = q) <;> rfl

theorem lookupAcc_set (m : TileMap) (p : Position) (a : TileAcc) (q : Position) :
    lookupAcc (setAcc m p a) q = if q = p then some a else lookupAcc m q := by
  unfold setAcc lookupAcc
  by_cases hany : m.any fun e => decide (e.1 = p)
  · rw [if_pos hany, find?_mapSet]
    by_cases hqp : q = p
    · rw [if_pos hqp, if_pos hqp]
      have hs : (m.find? fun e => decide (e.1 = p)).isSome := by
        rw [List.find?_isSome]
        exact List.any_eq_true.mp hany
      cases hfind : m.find? fun e => decide (e.1 = p) with
      | none => rw [hfind] at hs; simp at hs
      | some e' => simp
    · rw [if_neg hqp, if_neg hqp]
  · rw [if_neg hany, List.find?_append]
    by_cases hqp : q = p
    · subst hqp
      rw [find?_entry_none hany, if_pos rfl]
      simp [List.find?]
    · rw [if_neg hqp]
      have h1 : (([(p, a)] : TileMap).find? fun e => decide (e.1 = q)) = none := by
        rw [List.find?_eq_none]
        intro x hx
        rw [List.mem_singleton] at hx
        subst hx
        simp only [decide_eq_true_eq]
        exact fun h => hqp h.symm
      rw [h1]
      cases m.find? fun e => decide (e.1 = q) <;> rfl


theorem validateGo_props (input : BattleInput) :
    ∀ (us : List UnitInput) (ids : List Nat) (tiles : TileMap),
      validateGo input us ids tiles = .ok () →
      ((us.map (·.id)).Nodup ∧ ∀ u ∈ us, u.id ∉ ids) ∧
      (∀ u ∈ us, UNIT_SIZES u.type = u.size ∧ isWithin u.position input = true ∧
        ¬(u.position.x < (DEPLOYMENT_COLUMNS u.side).start ∨
          (DEPLOYMENT_COLUMNS u.side).stop < u.position.x)) ∧
      (∀ p : Position,
        (∀ acc, lookupAcc tiles p = some acc →
          (∀ u ∈ us.filter fun u => decide (u.position = p), u.side = acc.side) ∧
          ((us.filter fun u => decide (u.position = p)) ≠ [] →
            acc.count + (us.filter fun u => decide (u.position = p)).length ≤
              input.limits.maxUnitsPerTile ∧
            acc.size + ((us.filter fun u => decide (u.position = p)).map (·.size)).sum ≤
              input.limits.maxSizePerTile)) ∧
        (lookupAcc tiles p = none →
          (∀ u ∈ us.filter fun u => decide (u.position = p),
            ∀ v ∈ us.filter fun u => decide (u.position = p), u.side = v.side) ∧
          (2 ≤ (us.filter fun u => decide (u.position = p)).length →
            (us.filter fun u => decide (u.position = p)).length ≤
              input.limits.maxUnitsPerTile ∧
            ((us.filter fun u => decide (u.position = p)).map (·.size)).sum ≤
              input.limits.maxSizePerTile))) := by
  intro us
  induction us with
  | nil =>
    intro ids tiles _
    refine ⟨⟨List.nodup_nil, by simp⟩, by simp, ?_⟩
    intro p
    constructor
    · intro acc _
      simp
    · intro _
      simp
  | cons u rest ih =>
    intro ids tiles h
    unfold validateGo at h
    by_cases h1 : u.id ∈ ids
    · rw [if_pos h1] at h; simp at h
    rw [if_neg h1] at h
    by_cases h2 : UNIT_SIZES u.type ≠ u.size
    · rw [if_pos h2] at h; simp at h
    rw [if_neg h2] at h
    rw [not_not] at h2
    by_cases h3 : (!(isWithin u.position input)) = true
    · rw [if_pos h3] at h; simp at h
    rw [if_neg h3] at h
    have h3' : isWithin u.position input = true := by
      cases hw : isWithin u.position input
      · rw [hw] at h3; simp at h3
      · rfl
    by_cases h4 : u.position.x < (DEPLOYMENT_COLUMNS u.side).start ∨
        (DEPLOYMENT_COLUMNS u.side).stop < u.position.x
    · rw [if_pos h4] at h; simp at h
    rw [if_neg h4] at h
    cases hacc : lookupAcc tiles u.position with
    | none =>
      rw [hacc] at h
      obtain ⟨⟨ihnodup, ihids⟩, ihchecks, ihtiles⟩ :=
        ih (u.id :: ids) (setAcc tiles u.position ⟨u.side, 1, u.size⟩) h
      refine ⟨⟨?_, ?_⟩, ?_, ?_⟩
      · rw [List.map_cons, List.nodup_cons]
        refine ⟨?_, ihnodup⟩
        intro hmem
        rcases List.mem_map.mp hmem with ⟨v, hv, hvid⟩
        exact (ihids v hv) (by rw [hvid]; exact List.mem_cons_self _ _)
      · intro v hv
        rcases List.mem_cons.mp hv with hv1 | hv2
        · subst hv1; exact h1
        · exact fun hc => (ihids v hv2) (List.mem_cons_of_mem _ hc)
      · intro v hv
        rcases List.mem_cons.mp hv with hv1 | hv2
        · subst hv1; exact ⟨h2, h3', h4⟩
        · exact ihchecks v hv2
      · intro p
        by_cases hup : u.position = p
        · subst hup
          obtain ⟨ihsome, -⟩ := ihtiles u.position
          have hlook : lookupAcc (setAcc tiles u.position ⟨u.side, 1, u.size⟩) u.position =
              some ⟨u.side, 1, u.size⟩ := by
            rw [lookupAcc_set, if_pos rfl]
          obtain ⟨hsides, hcaps⟩ := ihsome ⟨u.side, 1, u.size⟩ hlook
          constructor
          · intro acc hacc2
            rw [hacc] at hacc2
            simp at hacc2
          · intro _
            rw [List.filter_cons, if_pos (by simp)]
            constructor
            · intro a ha b hb
              rcases List.mem_cons.mp ha with ha1 | ha2 <;>
                rcases List.mem_cons.mp hb with hb1 | hb2
              · rw [ha1, hb1]
              · rw [ha1, hsides b hb2]
              · rw [hb1, hsides a ha2]
              · rw [hsides a ha2, hsides b hb2]
            · intro hlen
              rw [List.length_cons] at hlen
              have hne : rest.filter (fun v => decide (v.position = u.position)) ≠ [] := by
                intro hempty
                rw [hempty] at hlen
                simp at hlen
              obtain ⟨hc1, hc2⟩ := hcaps hne
              dsimp only at hc1 hc2
              constructor
              · rw [List.length_cons]; omega
              · rw [List.map_cons, List.sum_cons]; omega
        · obtain ⟨ihsome, ihnone⟩ := ihtiles p
          have hlook : lookupAcc (setAcc tiles u.position ⟨u.side, 1, u.size⟩) p =
              lookupAcc tiles p := by
            rw [lookupAcc_set, if_neg (fun hc => hup hc.symm)]
          rw [hlook] at ihsome ihnone
          have hfilter : (u :: rest).filter (fun v => decide (v.position = p)) =
              rest.filter fun v => decide (v.position = p) := by
            rw [List.filter_cons, if_neg (by simp [hup])]
          rw [hfilter]
          exact ⟨ihsome, ihnone⟩
    | some acc =>
      rw [hacc] at h
      dsimp only at h
      by_cases h5 : acc.side ≠ u.side
      · rw [if_pos h5] at h; simp at h
      rw [if_neg h5] at h
      rw [not_not] at h5
      by_cases h6 : input.limits.maxUnitsPerTile < acc.count + 1
      · rw [if_pos h6] at h; simp at h
      rw [if_neg h6] at h
      by_cases h7 : input.limits.maxSizePerTile < acc.size + u.size
      · rw [if_pos h7] at h; simp at h
      rw [if_neg h7] at h
      rw [Nat.not_lt] at h6 h7
      obtain ⟨⟨ihnodup, ihids⟩, ihchecks, ihtiles⟩ :=
        ih (u.id :: ids) (setAcc tiles u.position ⟨acc.side, acc.count + 1, acc.size + u.size⟩) h
      refine ⟨⟨?_, ?_⟩, ?_, ?_⟩
      · rw [List.map_cons, List.nodup_cons]
        refine ⟨?_, ihnodup⟩
        intro hmem
        rcases List.mem_map.mp hmem with ⟨v, hv, hvid⟩
        exact (ihids v hv) (by rw [hvid]; exact List.mem_cons_self _ _)
      · intro v hv
        rcases List.mem_cons.mp hv with hv1 | hv2
        · subst hv1; exact h1
        · exact fun hc => (ihids v hv2) (List.mem_cons_of_mem _ hc)
      · intro v hv
        rcases List.mem_cons.mp hv with hv1 | hv2
        · subst hv1; exact ⟨h2, h3', h4⟩
        · exact ihchecks v hv2
      · intro p
        by_cases hup : u.position = p
        · subst hup
          obtain ⟨ihsome, -⟩ := ihtiles u.position
          have hlook : lookupAcc
              (setAcc tiles u.position ⟨acc.side, acc.count + 1, acc.size + u.size⟩)
              u.position = some ⟨acc.side, acc.count + 1, acc.size + u.size⟩ := by
            rw [lookupAcc_set, if_pos rfl]
          obtain ⟨hsides, hcaps⟩ :=
            ihsome ⟨acc.side, acc.count + 1, acc.size + u.size⟩ hlook
          constructor
          · intro acc' hacc2
            rw [hacc] at hacc2
            have hacc3 : acc = acc' := by
              simpa using hacc2
            subst hacc3
            rw [List.filter_cons, if_pos (by simp)]
            constructor
            · intro a ha
              rcases List.mem_cons.mp ha with ha1 | ha2
              · rw [ha1, h5]
              · exact hsides a ha2
            · intro _
              by_cases hne : rest.filter (fun v => decide (v.position = u.position)) = []
              · rw [hne]
                simp only [List.length_cons, List.length_nil, List.map_cons, List.map_nil,
                  List.sum_cons, List.sum_nil]
                omega
              · obtain ⟨hc1, hc2⟩ := hcaps hne
                dsimp only at hc1 hc2
                constructor
                · rw [List.length_cons]; omega
                · rw [List.map_cons, List.sum_cons]; omega
          · intro hacc2
            rw [hacc] at hacc2
            simp at hacc2
        · obtain ⟨ihsome, ihnone⟩ := ihtiles p
          have hlook : lookupAcc
              (setAcc tiles u.position ⟨acc.side, acc.count + 1, acc.size + u.size⟩) p =
              lookupAcc tiles p := by
            rw [lookupAcc_set, if_neg (fun hc => hup hc.symm)]
          rw [hlook] at ihsome ihnone
          have hfilter : (u :: rest).filter (fun v => decide (v.position = p)) =
              rest.filter fun v => decide (v.position = p) := by
            rw [List.filter_cons, if_neg (by simp [hup])]
          rw [hfilter]
          exact ⟨ihsome, ihnone⟩


/-- C7 (amended): any input with a duplicate unit id, a wrong size for its
type, an out-of-grid or out-of-zone placement, or a starting tile holding
at least two units that together mix sides or break the count or size cap,
is rejected: `resolveBattle` fails before any simulation step, and the
`Except.error` result carries no event log at all (validation runs inside
`validateInput`, called before the battle state is even built).  The
as-stated claim also covered cap violations on single-occupant tiles, which
validation does not detect (see the counterexample). -/
theorem C7_validation_rejects (input : BattleInput)
    (hviol : SpecViolationMulti input) :
    (resolveBattle input).isOk = false := by
  cases hval : validateInput input with
  | error e => unfold resolveBattle; rw [hval]; rfl
  | ok u =>
    exfalso
    cases u
    obtain ⟨⟨hnodup, -⟩, hchecks, htiles⟩ := validateGo_props input input.units [] [] hval
    rcases hviol with hdup | hws | hog | hoz | htile
    · exact hdup hnodup
    · obtain ⟨v, hv, hw⟩ := hws
      exact hw (hchecks v hv).1
    · obtain ⟨v, hv, hw⟩ := hog
      rw [(hchecks v hv).2.1] at hw
      simp at hw
    · obtain ⟨v, hv, hw⟩ := hoz
      exact (hchecks v hv).2.2 hw
    · obtain ⟨v, hv, hlen, hbad⟩ := htile
      obtain ⟨-, hnone⟩ := htiles v.position
      obtain ⟨hsides, hcaps⟩ := hnone rfl
      have hv' : v ∈ input.units.filter fun u => decide (u.position = v.position) := by
        rw [List.mem_filter]
        exact ⟨hv, by simp⟩
      rcases hbad with hmix | hcount | hsize
      · obtain ⟨w, hw, hwside⟩ := hmix
        exact hwside (hsides w hw v hv')
      · exact absurd (hcaps hlen).1 (Nat.not_le.mpr hcount)
      · exact absurd (hcaps hlen).2 (Nat.not_le.mpr hsize)

/-- Witness for C7 at a concrete duplicate-id input. -/
theorem C7_validation_rejects_witness :
    (resolveBattle dupIdInput).isOk = false :=
  C7_validation_rejects dupIdInput (by decide)



/-! ### Claim C2: supporting lemmas -/

theorem TileOk_sublist {input : BattleInput} {l l' : List UnitState}
    (hsub : l'.Sublist l) (h : TileOk input l) : TileOk input l' := by
  obtain ⟨hsides, hlen, hsum⟩ := h
  refine ⟨?_, ?_, ?_⟩
  · intro u hu v hv
    exact hsides u (hsub.subset hu) v (hsub.subset hv)
  · exact le_trans hsub.length_le hlen
  · exact le_trans ((hsub.map (·.size)).sum_le_sum fun a _ => Nat.zero_le a) hsum

theorem TileOk_map {input : BattleInput} {l : List UnitState}
    {g : UnitState → UnitState} (hg : ∀ v, (g v).side = v.side ∧ (g v).size = v.size)
    (h : TileOk input l) : TileOk input (l.map g) := by
  obtain ⟨hsides, hlen, hsum⟩ := h
  refine ⟨?_, ?_, ?_⟩
  · intro u hu v hv
    rcases List.mem_map.mp hu with ⟨a, ha, rfl⟩
    rcases List.mem_map.mp hv with ⟨b, hb, rfl⟩
    rw [(hg a).1, (hg b).1]
    exact hsides a ha b hb
  · rw [List.length_map]
    exact hlen
  · rw [List.map_map]
    have hcomp : ((fun x : UnitState => x.size) ∘ g) = fun v : UnitState => v.size := by
      funext v
      exact (hg v).2
    rw [hcomp]
    exact hsum

theorem livingOf_append (units : List UnitState) (ids ids' : List Nat) :
    livingOf units (ids ++ ids') = livingOf units ids ++ livingOf units ids' := by
  unfold livingOf
  rw [List.filterMap_append, List.filter_append]

theorem livingOf_sublist_ids (units : List UnitState) {ids ids' : List Nat}
    (h : ids'.Sublist ids) : (livingOf units ids').Sublist (livingOf units ids) := by
  unfold livingOf
  exact (h.filterMap (findUnit units)).filter (·.alive)

theorem livingOf_kill (units : List UnitState) (tid : Nat) (ids : List Nat) :
    (livingOf (updateUnit units tid fun v => { v with alive := false }) ids).Sublist
      (livingOf units ids) := by
  induction ids with
  | nil => exact List.Sublist.refl _
  | cons i rest ih =>
    unfold livingOf at ih ⊢
    rw [List.filterMap_cons, List.filterMap_cons,
      findUnit_update units tid (fun v => { v with alive := false }) (fun _ => rfl) i]
    cases h : findUnit units i with
    | none => exact ih
    | some v =>
      simp only [Option.map_some']
      by_cases hv : v.id = tid
      · rw [if_pos hv, List.filter_cons, List.filter_cons]
        simp only [show (({ v with alive := false } : UnitState).alive) = false from rfl,
          Bool.false_eq_true, if_false]
        cases hA : v.alive
        · simp only [Bool.false_eq_true, if_false]
          exact ih
        · simp only [if_true]
          exact ih.cons _
      · rw [if_neg hv, List.filter_cons, List.filter_cons]
        cases hA : v.alive
        · simp only [Bool.false_eq_true, if_false]
          exact ih
        · simp only [if_true]
          exact ih.cons₂ _

theorem livingOf_harmless (units : List UnitState) (id : Nat) (f : UnitState → UnitState)
    (hf : ∀ v, (f v).id = v.id ∧ (f v).alive = v.alive) (ids : List Nat) :
    livingOf (updateUnit units id f) ids =
      (livingOf units ids).map fun v => if v.id = id then f v else v := by
  induction ids with
  | nil => rfl
  | cons i rest ih =>
    unfold livingOf at ih ⊢
    rw [List.filterMap_cons, List.filterMap_cons,
      findUnit_update units id f (fun v => (hf v).1) i]
    cases h : findUnit units i with
    | none => exact ih
    | some v =>
      simp only [Option.map_some']
      rw [List.filter_cons, List.filter_cons]
      by_cases hv : v.id = id
      · rw [if_pos hv]
        cases hA : v.alive
        · simp only [(hf v).2, hA, Bool.false_eq_true, if_false]
          exact ih
        · simp only [(hf v).2, hA, if_true, List.map_cons]
          rw [ih, if_pos hv]
      · rw [if_neg hv]
        cases hA : v.alive
        · simp only [hA, Bool.false_eq_true, if_false]
          exact ih
        · simp only [hA, if_true, List.map_cons]
          rw [ih, if_neg hv]

theorem SimInv_fields {input : BattleInput} {s s' : SimState}
    (hu : s'.units = s.units) (ht : s'.tileIndex = s.tileIndex)
    (h : SimInv input s) : SimInv input s' := by
  unfold SimInv KeysOk TileWf SizeBound TileInvariant at *
  rw [hu, ht]
  exact h

theorem mem_setTile {ti : TileIndex} {p : Position} {l : List Nat}
    {e : Position × List Nat} (he : e ∈ setTile ti p l) :
    e = (p, l) ∨ (e ∈ ti ∧ e.1 ≠ p) := by
  unfold setTile at he
  by_cases hany : ti.any fun x => decide (x.1 = p)
  · rw [if_pos hany] at he
    rcases List.mem_map.mp he with ⟨a, ha, rfl⟩
    by_cases hap : a.1 = p
    · left
      rw [if_pos hap]
    · right
      rw [if_neg hap]
      exact ⟨ha, hap⟩
  · rw [if_neg hany] at he
    rcases List.mem_append.mp he with h1 | h1
    · right
      refine ⟨h1, ?_⟩
      intro hc
      exact hany (List.any_eq_true.mpr ⟨e, h1, decide_eq_true hc⟩)
    · left
      simpa using h1

theorem keys_setTile {ti : TileIndex} (p : Position) (l : List Nat)
    (h : KeysOk ti) : KeysOk (setTile ti p l) := by
  unfold KeysOk setTile at *
  by_cases hany : ti.any fun x => decide (x.1 = p)
  · rw [if_pos hany, List.map_map]
    have hsame : ((fun e : Position × List Nat => e.1) ∘
        fun e => if e.1 = p then (p, l) else e) = fun e : Position × List Nat => e.1 := by
      funext e
      by_cases hep : e.1 = p
      · simp [hep]
      · simp [hep]
    rw [hsame]
    exact h
  · rw [if_neg hany, List.map_append]
    rw [List.nodup_append]
    refine ⟨h, by simp, ?_⟩
    intro x hx
    simp only [List.map_cons, List.map_nil, List.mem_singleton]
    intro hc
    subst hc
    rcases List.mem_map.mp hx with ⟨a, ha, hap⟩
    exact hany (List.any_eq_true.mpr ⟨a, ha, decide_eq_true hap⟩)

theorem entry_eq_lookup {ti : TileIndex} (h : KeysOk ti)
    {e : Position × List Nat} (he : e ∈ ti) : lookupTile ti e.1 = e.2 := by
  unfold KeysOk at h
  induction ti with
  | nil => simp at he
  | cons e₀ rest ih =>
    rw [List.map_cons, List.nodup_cons] at h
    rcases List.mem_cons.mp he with h1 | h1
    · subst h1
      unfold lookupTile
      rw [List.find?_cons_of_pos _ (by simp)]
      rfl
    · have hne : e₀.1 ≠ e.1 := by
        intro hc
        exact h.1 (hc ▸ List.mem_map.mpr ⟨e, h1, rfl⟩)
      unfold lookupTile
      rw [List.find?_cons_of_neg _ (by simpa using hne)]
      exact ih h.2 h1

theorem lookupTile_of_find {ti : TileIndex} {p : Position} {e₀ : Position × List Nat}
    (hfind : (ti.find? fun e => decide (e.1 = p)) = some e₀) :
    lookupTile ti p = e₀.2 ∧ e₀ ∈ ti ∧ e₀.1 = p := by
  refine ⟨?_, List.mem_of_find?_eq_some hfind, ?_⟩
  · unfold lookupTile
    rw [hfind]
    rfl
  · have := List.find?_some hfind
    exact of_decide_eq_true this

theorem TileWf_update {units : List UnitState} {ti : TileIndex} (id : Nat)
    (f : UnitState → UnitState)
    (hf : ∀ v, (f v).id = v.id ∧ (f v).position = v.position)
    (h : TileWf units ti) : TileWf (updateUnit units id f) ti := by
  intro e he i hi
  obtain ⟨w, hw, hwp⟩ := h e he i hi
  refine ⟨if w.id = id then f w else w, ?_, ?_⟩
  · rw [findUnit_update units id f (fun v => (hf v).1) i, hw]
    rfl
  · by_cases hwid : w.id = id
    · rw [if_pos hwid, (hf w).2]
      exact hwp
    · rw [if_neg hwid]
      exact hwp

theorem SizeBound_update {input : BattleInput} {units : List UnitState} (id : Nat)
    (f : UnitState → UnitState) (hf : ∀ v, (f v).size = v.size)
    (h : SizeBound input units) : SizeBound input (updateUnit units id f) := by
  intro u hu
  rcases List.mem_map.mp hu with ⟨v, hv, rfl⟩
  by_cases hvid : v.id = id
  · rw [if_pos hvid, hf v]
    exact h v hv
  · rw [if_neg hvid]
    exact h v hv

theorem SimInv_removeState {input : BattleInput} {s : SimState} (u : UnitState)
    (h : SimInv input s) : SimInv input (removeState s u) := by
  obtain ⟨hkeys, hwf, hsize, hinv⟩ := h
  unfold removeState applyRemoval
  cases hfind : s.tileIndex.find? fun e => decide (e.1 = u.position) with
  | none =>
    dsimp only
    refine ⟨hkeys, ?_, ?_, ?_⟩
    · exact TileWf_update u.id (fun v => { v with alive := false }) (fun v => ⟨rfl, rfl⟩) hwf
    · exact SizeBound_update u.id (fun v => { v with alive := false }) (fun v => rfl) hsize
    · intro e he
      exact TileOk_sublist (livingOf_kill s.units u.id e.2) (hinv e he)
  | some e₀ =>
    dsimp only
    obtain ⟨hlook, he₀mem, he₀key⟩ := lookupTile_of_find hfind
    refine ⟨keys_setTile u.position _ hkeys, ?_, ?_, ?_⟩
    · intro e he i hi
      rcases mem_setTile he with h1 | ⟨h1, h2⟩
      · subst h1
        have hi' : i ∈ lookupTile s.tileIndex u.position := by
          have := List.mem_filter.mp hi
          exact this.1
        rw [hlook] at hi'
        obtain ⟨w, hw, hwp⟩ := hwf e₀ he₀mem i hi'
        refine ⟨if w.id = u.id then { w with alive := false } else w, ?_, ?_⟩
        · rw [findUnit_update s.units u.id (fun v => { v with alive := false })
            (fun v => rfl) i, hw]
          rfl
        · by_cases hwid : w.id = u.id
          · rw [if_pos hwid]
            rw [hwp, he₀key]
          · rw [if_neg hwid]
            rw [hwp, he₀key]
      · exact TileWf_update u.id (fun v => { v with alive := false }) (fun v => ⟨rfl, rfl⟩) hwf e h1 i hi
    · exact SizeBound_update u.id (fun v => { v with alive := false }) (fun v => rfl) hsize
    · intro e he
      rcases mem_setTile he with h1 | ⟨h1, h2⟩
      · subst h1
        dsimp only
        have hsub1 : (livingOf (updateUnit s.units u.id fun v => { v with alive := false })
            ((lookupTile s.tileIndex u.position).filter fun id => decide (id ≠ u.id))).Sublist
            (livingOf (updateUnit s.units u.id fun v => { v with alive := false })
              (lookupTile s.tileIndex u.position)) :=
          livingOf_sublist_ids _ (List.filter_sublist _)
        have hsub2 := livingOf_kill s.units u.id (lookupTile s.tileIndex u.position)
        rw [hlook] at hsub2
        refine TileOk_sublist (hsub1.trans ?_) (hinv e₀ he₀mem)
        rw [hlook]
        exact hsub2
      · exact TileOk_sublist (livingOf_kill s.units u.id e.2) (hinv e h1)

theorem SimInv_update_harmless {input : BattleInput} {s : SimState} (id : Nat)
    (f : UnitState → UnitState)
    (hf : ∀ v, (f v).id = v.id ∧ (f v).alive = v.alive ∧ (f v).side = v.side ∧
      (f v).size = v.size ∧ (f v).position = v.position)
    (h : SimInv input s) : SimInv input { s with units := updateUnit s.units id f } := by
  obtain ⟨hkeys, hwf, hsize, hinv⟩ := h
  refine ⟨hkeys, ?_, ?_, ?_⟩
  · exact TileWf_update id f (fun v => ⟨(hf v).1, (hf v).2.2.2.2⟩) hwf
  · exact SizeBound_update id f (fun v => (hf v).2.2.2.1) hsize
  · intro e he
    rw [livingOf_harmless s.units id f (fun v => ⟨(hf v).1, (hf v).2.1⟩) e.2]
    refine TileOk_map ?_ (hinv e he)
    intro v
    by_cases hvid : v.id = id
    · rw [if_pos hvid]
      exact ⟨(hf v).2.2.1, (hf v).2.2.2.1⟩
    · rw [if_neg hvid]
      exact ⟨rfl, rfl⟩

theorem bfsVisit_cases (unit : UnitState) (ti : TileIndex) (units : List UnitState)
    (input : BattleInput) (cur : BfsNode) (acc : List Position × List BfsNode) (n : Position) :
    bfsVisit unit ti units input cur acc n = acc ∨
    (n ∉ acc.1 ∧ canEnterTile unit ti units n input = true ∧
      bfsVisit unit ti units input cur acc n =
        (acc.1 ++ [n], acc.2 ++ [⟨n, some (cur.firstStep.getD n)⟩])) := by
  unfold bfsVisit
  by_cases h1 : n ∈ acc.1
  · left
    rw [if_pos h1]
  · rw [if_neg h1]
    by_cases h2 : canEnterTile unit ti units n input = true
    · right
      refine ⟨h1, h2, ?_⟩
      rw [h2]
      rfl
    · left
      have h2' : canEnterTile unit ti units n input = false := by
        cases h : canEnterTile unit ti units n input
        · rfl
        · exact absurd h h2
      rw [h2']
      rfl

theorem bfsVisit_fold_inv (unit : UnitState) (ti : TileIndex) (units : List UnitState)
    (input : BattleInput) (startKey : Position) (cur : BfsNode)
    (hcur : ∀ st, cur.firstStep = some st →
      canEnterTile unit ti units st input = true ∧ st ≠ startKey)
    (ns : List Position) :
    ∀ (acc : List Position × List BfsNode),
    startKey ∈ acc.1 →
    (∀ b ∈ acc.2, ∀ st, b.firstStep = some st →
      canEnterTile unit ti units st input = true ∧ st ≠ startKey) →
    startKey ∈ (ns.foldl (bfsVisit unit ti units input cur) acc).1 ∧
    ∀ b ∈ (ns.foldl (bfsVisit unit ti units input cur) acc).2, ∀ st,
      b.firstStep = some st →
      canEnterTile unit ti units st input = true ∧ st ≠ startKey := by
  induction ns with
  | nil => exact fun acc hks hacc => ⟨hks, hacc⟩
  | cons n ns ih =>
    intro acc hks hacc
    rw [List.foldl_cons]
    rcases bfsVisit_cases unit ti units input cur acc n with he | ⟨hn, hce, he⟩
    · rw [he]
      exact ih acc hks hacc
    · rw [he]
      refine ih _ (List.mem_append_left _ hks) ?_
      intro b hb st hst
      rcases List.mem_append.mp hb with hb | hb
      · exact hacc b hb st hst
      · have hb' : b = ⟨n, some (cur.firstStep.getD n)⟩ := List.mem_singleton.mp hb
        subst hb'
        have hst' : cur.firstStep.getD n = st := Option.some.inj hst
        cases hfs : cur.firstStep with
        | none =>
          rw [hfs] at hst'
          dsimp only [Option.getD] at hst'
          subst hst'
          refine ⟨hce, ?_⟩
          intro hcontra
          rw [hcontra] at hn
          exact hn hks
        | some st' =>
          rw [hfs] at hst'
          dsimp only [Option.getD] at hst'
          rw [← hst']
          exact hcur st' hfs

theorem bfsLoop_ok (unit : UnitState) (ti : TileIndex) (units : List UnitState)
    (input : BattleInput) (startKey : Position) (targetKeys : List Position) :
    ∀ (fuel : Nat) (queue : List BfsNode) (visited : List Position),
    startKey ∈ visited →
    (∀ b ∈ queue, ∀ st, b.firstStep = some st →
      canEnterTile unit ti units st input = true ∧ st ≠ startKey) →
    ∀ step, bfsLoop unit ti units input startKey targetKeys fuel queue visited = some step →
    canEnterTile unit ti units step input = true ∧ step ≠ startKey := by
  intro fuel
  induction fuel with
  | zero =>
    intro queue visited _ _ step h
    exact absurd h (by simp [bfsLoop])
  | succ fuel ih =>
    intro queue visited hks hq step h
    cases queue with
    | nil => exact absurd h (by simp [bfsLoop])
    | cons cur rest =>
      rw [bfsLoop] at h
      by_cases hc : cur.pos ≠ startKey ∧ cur.pos ∈ targetKeys
      · rw [if_pos hc] at h
        exact hq cur (List.mem_cons_self _ _) step h
      · rw [if_neg hc] at h
        dsimp only at h
        obtain ⟨h1, h2⟩ := bfsVisit_fold_inv unit ti units input startKey cur
          (hq cur (List.mem_cons_self _ _)) (neighborsOf cur.pos) (visited, []) hks
          (fun b hb => absurd hb (List.not_mem_nil b))
        refine ih _ _ h1 ?_ step h
        intro b hb
        rcases List.mem_append.mp hb with hb | hb
        · exact hq b (List.mem_cons_of_mem _ hb)
        · exact h2 b hb

theorem findMoveStep_spec (unit : UnitState) (ti : TileIndex) (units : List UnitState)
    (input : BattleInput) (step : Position)
    (h : findMoveStep unit ti units input = some step) :
    canEnterTile unit ti units step input = true ∧ step ≠ unit.position := by
  unfold findMoveStep at h
  by_cases h1 : (getEnemyUnits units unit.side).isEmpty = true
  · rw [if_pos h1] at h
    exact absurd h (by simp)
  · rw [if_neg h1] at h
    dsimp only at h
    by_cases h2 : (moveTargets unit ti units input (getEnemyUnits units unit.side)).isEmpty = true
    · rw [if_pos h2] at h
      exact absurd h (by simp)
    · rw [if_neg h2] at h
      refine bfsLoop_ok unit ti units input unit.position _ (gridFuel input)
        [⟨unit.position, none⟩] [unit.position] (List.mem_singleton_self _) ?_ step h
      intro b hb st hst
      have hb' : b = ⟨unit.position, none⟩ := List.mem_singleton.mp hb
      subst hb'
      exact absurd hst (by simp)

theorem forM_ok {α : Type} (f : α → Except String Unit) (l : List α) :
    ∀ u₀ : Unit, l.forM f = .ok u₀ → ∀ a ∈ l, ∃ u, f a = .ok u := by
  induction l with
  | nil =>
    intro u₀ h a ha
    exact absurd ha (List.not_mem_nil a)
  | cons b rest ih =>
    intro u₀ h
    have h2 : (f b >>= fun _ => rest.forM f) = .ok u₀ := h
    cases hb : f b with
    | error e =>
      rw [hb] at h2
      exact absurd h2 (by simp [Bind.bind, Except.bind])
    | ok u =>
      rw [hb] at h2
      have h' : rest.forM f = .ok u₀ := by
        simpa [Bind.bind, Except.bind] using h2
      intro a ha
      rcases List.mem_cons.mp ha with rfl | ha
      · exact ⟨u, hb⟩
      · exact ih u₀ h' a ha

theorem TileOk_nil (input : BattleInput) : TileOk input [] :=
  ⟨fun u hu => absurd hu (List.not_mem_nil u), Nat.zero_le _, Nat.zero_le _⟩

theorem checkTileConstraints_ok {ti : TileIndex} {units : List UnitState}
    {input : BattleInput} {u : Unit}
    (h : checkTileConstraints ti units input = .ok u) :
    ∀ e ∈ ti, TileOk input (livingOf units e.2) := by
  intro e he
  unfold checkTileConstraints at h
  obtain ⟨u', hu'⟩ := forM_ok _ ti u h e he
  clear h
  revert hu'
  dsimp only
  cases hl : (livingOf units e.2).head? with
  | none =>
    intro _
    rw [List.head?_eq_none_iff] at hl
    rw [hl]
    exact TileOk_nil input
  | some first =>
    intro hu'
    dsimp only at hu'
    by_cases h1 : ((livingOf units e.2).any fun v => decide (v.side ≠ first.side)) = true
    · rw [if_pos h1] at hu'
      exact absurd hu' (by simp [throw, throwThe, MonadExceptOf.throw])
    · rw [if_neg h1] at hu'
      by_cases h2 : input.limits.maxUnitsPerTile < (livingOf units e.2).length
      · rw [if_pos h2] at hu'
        exact absurd hu' (by simp [throw, throwThe, MonadExceptOf.throw])
      · rw [if_neg h2] at hu'
        by_cases h3 : input.limits.maxSizePerTile < ((livingOf units e.2).map (·.size)).sum
        · rw [if_pos h3] at hu'
          exact absurd hu' (by simp [throw, throwThe, MonadExceptOf.throw])
        · have hside : ∀ v ∈ livingOf units e.2, v.side = first.side := by
            intro v hv
            by_contra hc
            exact h1 (List.any_eq_true.mpr ⟨v, hv, decide_eq_true hc⟩)
          refine ⟨?_, Nat.le_of_not_lt h2, Nat.le_of_not_lt h3⟩
          intro a ha b hb
          rw [hside a ha, hside b hb]

theorem mem_lookupTile {ti : TileIndex} {p : Position} {i : Nat}
    (h : i ∈ lookupTile ti p) : ∃ e, e ∈ ti ∧ e.1 = p ∧ i ∈ e.2 := by
  unfold lookupTile at h
  cases hf : ti.find? fun e => decide (e.1 = p) with
  | none =>
    rw [hf] at h
    exact absurd h (List.not_mem_nil i)
  | some e₀ =>
    rw [hf] at h
    obtain ⟨_, hm, hk⟩ := lookupTile_of_find hf
    exact ⟨e₀, hm, hk, h⟩

theorem TileWf_move {input : BattleInput} {s : SimState} {unit : UnitState}
    (step : Position) (hfind : findUnit s.units unit.id = some unit)
    (h : SimInv input s) :
    TileWf (updateUnit s.units unit.id fun v => { v with position := step })
      (addUnitToTile (setTile s.tileIndex unit.position
        ((lookupTile s.tileIndex unit.position).filter fun id => decide (id ≠ unit.id)))
        unit.id step) := by
  obtain ⟨hkeys, hwf, hsize, hinv⟩ := h
  intro e he i hi
  have hupd := findUnit_update s.units unit.id
    (fun v => { v with position := step }) (fun v => rfl)
  rcases mem_setTile he with h1 | ⟨h1, h2⟩
  · subst h1
    dsimp only at hi ⊢
    rcases List.mem_append.mp hi with hi | hi
    · rw [lookupTile_set] at hi
      by_cases hss : step = unit.position
      · rw [if_pos hss] at hi
        obtain ⟨hmem, hne⟩ := List.mem_filter.mp hi
        have hne' : i ≠ unit.id := of_decide_eq_true hne
        obtain ⟨e₀, he₀, hk₀, hi₀⟩ := mem_lookupTile hmem
        obtain ⟨w, hw, hwp⟩ := hwf e₀ he₀ i hi₀
        have hwid : w.id = i := (findUnit_props hw).2
        refine ⟨w, ?_, ?_⟩
        · rw [hupd i, hw]
          dsimp only [Option.map]
          rw [if_neg (by rw [hwid]; exact hne')]
        · rw [hwp, hk₀, ← hss]
      · rw [if_neg hss] at hi
        obtain ⟨e₀, he₀, hk₀, hi₀⟩ := mem_lookupTile hi
        obtain ⟨w, hw, hwp⟩ := hwf e₀ he₀ i hi₀
        by_cases hwid : w.id = unit.id
        · refine ⟨{ w with position := step }, ?_, rfl⟩
          rw [hupd i, hw]
          dsimp only [Option.map]
          rw [if_pos hwid]
        · refine ⟨w, ?_, ?_⟩
          · rw [hupd i, hw]
            dsimp only [Option.map]
            rw [if_neg hwid]
          · rw [hwp, hk₀]
    · have hie : i = unit.id := List.mem_singleton.mp hi
      subst hie
      refine ⟨{ unit with position := step }, ?_, rfl⟩
      rw [hupd unit.id, hfind]
      dsimp only [Option.map]
      rw [if_pos rfl]
  · rcases mem_setTile h1 with h3 | ⟨h3, h4⟩
    · subst h3
      dsimp only at hi
      obtain ⟨hmem, hne⟩ := List.mem_filter.mp hi
      have hne' : i ≠ unit.id := of_decide_eq_true hne
      obtain ⟨e₀, he₀, hk₀, hi₀⟩ := mem_lookupTile hmem
      obtain ⟨w, hw, hwp⟩ := hwf e₀ he₀ i hi₀
      have hwid : w.id = i := (findUnit_props hw).2
      refine ⟨w, ?_, ?_⟩
      · rw [hupd i, hw]
        dsimp only [Option.map]
        rw [if_neg (by rw [hwid]; exact hne')]
      · dsimp only
        rw [hwp, hk₀]
    · obtain ⟨w, hw, hwp⟩ := hwf e h3 i hi
      by_cases hwid : w.id = unit.id
      · exfalso
        have hiw : w.id = i := (findUnit_props hw).2
        have hieq : i = unit.id := by
          rw [← hiw, hwid]
        rw [hieq] at hw
        have hweq : w = unit := Option.some.inj (hw.symm.trans hfind)
        rw [hweq] at hwp
        exact h4 (hwp ▸ rfl)
      · exact ⟨w, by rw [hupd i, hw]; dsimp only [Option.map]; rw [if_neg hwid], hwp⟩

theorem SimInv_move {input : BattleInput} {s : SimState} {unit : UnitState}
    (step : Position) (hfind : findUnit s.units unit.id = some unit)
    (h : SimInv input s) {u : Unit}
    (hchk : checkTileConstraints
      (addUnitToTile (setTile s.tileIndex unit.position
        ((lookupTile s.tileIndex unit.position).filter fun id => decide (id ≠ unit.id)))
        unit.id step)
      (updateUnit s.units unit.id fun v => { v with position := step }) input = .ok u)
    {s' : SimState}
    (hu : s'.units = updateUnit s.units unit.id fun v => { v with position := step })
    (ht : s'.tileIndex = addUnitToTile (setTile s.tileIndex unit.position
      ((lookupTile s.tileIndex unit.position).filter fun id => decide (id ≠ unit.id)))
      unit.id step) :
    SimInv input s' := by
  refine ⟨?_, ?_, ?_, ?_⟩
  · rw [ht]
    exact keys_setTile _ _ (keys_setTile _ _ h.1)
  · rw [hu, ht]
    exact TileWf_move step hfind h
  · rw [hu]
    exact SizeBound_update unit.id _ (fun v => rfl) h.2.2.1
  · intro e he
    rw [ht] at he
    rw [hu]
    exact checkTileConstraints_ok hchk e he

/-- A state carrying only the two `SimInv`-relevant components; used to chain
preservation steps without reasoning about the other record fields. -/
def mkUT (units : List UnitState) (ti : TileIndex) : SimState :=
  ⟨units, ti, [], [], 0, 0, 0, false⟩

theorem UT_removal {input : BattleInput} {units : List UnitState} {ti : TileIndex}
    (t : UnitState) (h : SimInv input (mkUT units ti)) :
    SimInv input (mkUT (applyRemoval t ti units).2 (applyRemoval t ti units).1) :=
  SimInv_fields rfl rfl (SimInv_removeState t h)

theorem UT_harmless {input : BattleInput} {units : List UnitState} {ti : TileIndex}
    (id : Nat) (f : UnitState → UnitState)
    (hf : ∀ v, (f v).id = v.id ∧ (f v).alive = v.alive ∧ (f v).side = v.side ∧
      (f v).size = v.size ∧ (f v).position = v.position)
    (h : SimInv input (mkUT units ti)) :
    SimInv input (mkUT (updateUnit units id f) ti) :=
  SimInv_fields rfl rfl (SimInv_update_harmless id f hf h)

theorem UT_move {input : BattleInput} {units : List UnitState} {ti : TileIndex}
    (unit : UnitState) (step : Position)
    (hfind : findUnit units unit.id = some unit) {u : Unit}
    (hchk : checkTileConstraints
      (addUnitToTile (setTile ti unit.position
        ((lookupTile ti unit.position).filter fun id => decide (id ≠ unit.id)))
        unit.id step)
      (updateUnit units unit.id fun v => { v with position := step }) input = .ok u)
    (h : SimInv input (mkUT units ti)) :
    SimInv input (mkUT (updateUnit units unit.id fun v => { v with position := step })
      (addUnitToTile (setTile ti unit.position
        ((lookupTile ti unit.position).filter fun id => decide (id ≠ unit.id)))
        unit.id step)) :=
  SimInv_move step hfind h hchk rfl rfl

theorem SimInv_fireballStep {input : BattleInput} (tick srcId : Nat) {s : SimState}
    (t : UnitState) (h : SimInv input s) :
    SimInv input (fireballStep tick srcId s t) :=
  SimInv_fields rfl rfl (UT_removal t (SimInv_fields rfl rfl h))

theorem SimInv_fireFold {input : BattleInput} (tick srcId : Nat) (l : List UnitState) :
    ∀ {s : SimState}, SimInv input s →
      SimInv input (l.foldl (fireballStep tick srcId) s) := by
  induction l with
  | nil => exact fun h => h
  | cons t rest ih =>
    intro s h
    rw [List.foldl_cons]
    exact ih (SimInv_fireballStep tick srcId t h)

theorem SimInv_impactOne {input : BattleInput} (tick : Nat) {s : SimState}
    (p : ProjectileState) (h : SimInv input s) :
    SimInv input (impactOne input tick s p) := by
  unfold impactOne
  dsimp only
  split
  · exact SimInv_fields rfl rfl h
  · split
    · split
      · exact SimInv_fields rfl rfl h
      · exact SimInv_fields rfl rfl (UT_removal _ (SimInv_fields rfl rfl h))
    · exact SimInv_fireFold tick p.sourceId _ (SimInv_fields rfl rfl h)

theorem SimInv_unitAct {input : BattleInput} {tick : Nat} {s : SimState} {uid : Nat}
    {s' : SimState} (hact : unitAct input tick s uid = .ok s')
    (h : SimInv input s) : SimInv input s' := by
  unfold unitAct at hact
  cases hfind : findUnit s.units uid with
  | none =>
    rw [hfind] at hact
    dsimp only at hact
    exact (Except.ok.inj hact) ▸ h
  | some unit =>
    rw [hfind] at hact
    dsimp only at hact
    split at hact
    · exact (Except.ok.inj hact) ▸ h
    · split at hact
      · -- melee branch
        split at hact
        · -- hit and target alive: removal happened
          have hs := Except.ok.inj hact
          subst hs
          exact SimInv_fields rfl rfl
            (UT_harmless unit.id _ (fun v => ⟨rfl, rfl, rfl, rfl, rfl⟩)
              (UT_removal _ (SimInv_fields rfl rfl h)))
        · have hs := Except.ok.inj hact
          subst hs
          exact SimInv_fields rfl rfl
            (UT_harmless unit.id _ (fun v => ⟨rfl, rfl, rfl, rfl, rfl⟩)
              (SimInv_fields rfl rfl h))
      · split at hact
        · -- ranged branch
          have hs := Except.ok.inj hact
          subst hs
          exact SimInv_fields rfl rfl
            (UT_harmless unit.id _ (fun v => ⟨rfl, rfl, rfl, rfl, rfl⟩)
              (SimInv_fields rfl rfl h))
        · split at hact
          · -- move branch: split on the checkTileConstraints match
            split at hact
            · exact absurd hact (by simp)
            · rename_i u heq
              have hs := Except.ok.inj hact
              subst hs
              have hfind2 : findUnit s.units unit.id = some unit := by
                rw [(findUnit_props hfind).2]
                exact hfind
              exact SimInv_fields rfl rfl
                (UT_harmless unit.id _ (fun v => ⟨rfl, rfl, rfl, rfl, rfl⟩)
                  (UT_move unit _ hfind2 heq (SimInv_fields rfl rfl h)))
          · -- wait branch
            have hs := Except.ok.inj hact
            subst hs
            exact SimInv_fields rfl rfl
              (UT_harmless unit.id _ (fun v => ⟨rfl, rfl, rfl, rfl, rfl⟩)
                (SimInv_fields rfl rfl h))

theorem self_mem_setTile (ti : TileIndex) (p : Position) (l : List Nat) :
    (p, l) ∈ setTile ti p l := by
  unfold setTile
  by_cases hany : ti.any fun e => decide (e.1 = p)
  · rw [if_pos hany]
    obtain ⟨e, he, hep⟩ := List.any_eq_true.mp hany
    have hep' : e.1 = p := of_decide_eq_true hep
    exact List.mem_map.mpr ⟨e, he, by rw [if_pos hep']⟩
  · rw [if_neg hany]
    exact List.mem_append_right _ (List.mem_singleton_self _)

theorem mem_setTile_of_ne {ti : TileIndex} {e : Position × List Nat} (he : e ∈ ti)
    {p : Position} (hne : e.1 ≠ p) (l : List Nat) : e ∈ setTile ti p l := by
  unfold setTile
  by_cases hany : ti.any fun x => decide (x.1 = p)
  · rw [if_pos hany]
    exact List.mem_map.mpr ⟨e, he, by rw [if_neg hne]⟩
  · rw [if_neg hany]
    exact List.mem_append_left _ he

theorem findUnit_nodup {units : List UnitState} (hnd : (units.map (·.id)).Nodup)
    {v : UnitState} (hv : v ∈ units) : findUnit units v.id = some v := by
  induction units with
  | nil => exact absurd hv (List.not_mem_nil v)
  | cons u rest ih =>
    rw [List.map_cons, List.nodup_cons] at hnd
    rcases List.mem_cons.mp hv with rfl | hv'
    · unfold findUnit
      rw [List.find?_cons_of_pos _ (by simp)]
    · have hne : u.id ≠ v.id := fun hc => hnd.1 (hc ▸ List.mem_map.mpr ⟨v, hv', rfl⟩)
      unfold findUnit at ih ⊢
      rw [List.find?_cons_of_neg _ (by simpa using hne)]
      exact ih hnd.2 hv'

theorem livingOf_spawned (sorted : List UnitInput)
    (hnd : ((sorted.map mkUnitState).map (·.id)).Nodup) :
    ∀ l' : List UnitInput, (∀ w ∈ l', w ∈ sorted) →
    livingOf (sorted.map mkUnitState) (l'.map (·.id)) = l'.map mkUnitState := by
  intro l'
  induction l' with
  | nil => intro _; rfl
  | cons w rest ih =>
    intro hsub
    unfold livingOf at ih ⊢
    rw [List.map_cons, List.filterMap_cons]
    have hw : findUnit (sorted.map mkUnitState) w.id = some (mkUnitState w) := by
      have hid : (mkUnitState w).id = w.id := rfl
      rw [← hid]
      exact findUnit_nodup hnd
        (List.mem_map.mpr ⟨w, hsub w (List.mem_cons_self _ _), rfl⟩)
    rw [hw]
    dsimp only
    rw [List.filter_cons]
    simp only [show (mkUnitState w).alive = true from rfl, if_true]
    rw [List.map_cons]
    congr 1
    exact ih fun v hv => hsub v (List.mem_cons_of_mem _ hv)

/-- The fold invariant of the spawn loop: after spawning `done`, the unit map
holds exactly their spawn records and the tile index holds exactly the
nonempty per-position id lists. -/
def SpawnAcc (done : List UnitInput) (s : SimState) : Prop :=
  s.units = done.map mkUnitState ∧
  KeysOk s.tileIndex ∧
  (∀ e ∈ s.tileIndex,
    e.2 = ((done.filter fun w => decide (w.position = e.1)).map (·.id)) ∧ e.2 ≠ []) ∧
  (∀ p : Position, (done.filter fun w => decide (w.position = p)) ≠ [] →
    ∃ e, e ∈ s.tileIndex ∧ e.1 = p)

theorem SpawnAcc_step {done : List UnitInput} {s : SimState} (u : UnitInput)
    (h : SpawnAcc done s) : SpawnAcc (done ++ [u]) (spawnStep s u) := by
  obtain ⟨hu, hk, hent, hcov⟩ := h
  have hlook : lookupTile s.tileIndex u.position =
      (done.filter fun w => decide (w.position = u.position)).map (·.id) := by
    cases hf : s.tileIndex.find? fun e => decide (e.1 = u.position) with
    | none =>
      have hl0 : lookupTile s.tileIndex u.position = [] := by
        unfold lookupTile
        rw [hf]
        rfl
      rw [hl0]
      cases hfil : done.filter fun w => decide (w.position = u.position) with
      | nil => rfl
      | cons a l =>
        exfalso
        obtain ⟨e, hem, hek⟩ := hcov u.position (by rw [hfil]; exact List.cons_ne_nil a l)
        have := List.find?_eq_none.mp hf e hem
        exact this (decide_eq_true hek)
    | some e₀ =>
      obtain ⟨hl, hm, hk'⟩ := lookupTile_of_find hf
      rw [hl, (hent e₀ hm).1, hk']
  refine ⟨?_, ?_, ?_, ?_⟩
  · show s.units ++ [mkUnitState u] = (done ++ [u]).map mkUnitState
    rw [hu, List.map_append]
    rfl
  · exact keys_setTile _ _ hk
  · intro e he
    rcases mem_setTile he with h1 | ⟨h1, h2⟩
    · subst h1
      dsimp only
      constructor
      · rw [hlook, List.filter_append]
        have hfu : [u].filter (fun w => decide (w.position = u.position)) = [u] := by
          rw [List.filter_cons]
          simp
        rw [hfu, List.map_append]
        rfl
      · simp
    · have hold := hent e h1
      constructor
      · rw [List.filter_append]
        have hfu : [u].filter (fun w => decide (w.position = e.1)) = [] := by
          rw [List.filter_cons]
          have : ¬ u.position = e.1 := fun hc => h2 hc.symm
          simp [this]
        rw [hfu, List.append_nil]
        exact hold.1
      · exact hold.2
  · intro p hne
    rw [List.filter_append] at hne
    by_cases hpu : p = u.position
    · exact ⟨(u.position, lookupTile s.tileIndex u.position ++ [u.id]),
        self_mem_setTile _ _ _, hpu.symm⟩
    · have hfu : [u].filter (fun w => decide (w.position = p)) = [] := by
        rw [List.filter_cons]
        have : ¬ u.position = p := fun hc => hpu hc.symm
        simp [this]
      rw [hfu, List.append_nil] at hne
      obtain ⟨e, hem, hek⟩ := hcov p hne
      exact ⟨e, mem_setTile_of_ne hem (by rw [hek]; exact hpu) _, hek⟩

theorem SpawnAcc_fold (todo : List UnitInput) :
    ∀ (done : List UnitInput) (s : SimState), SpawnAcc done s →
      SpawnAcc (done ++ todo) (todo.foldl spawnStep s) := by
  induction todo with
  | nil =>
    intro done s h
    rw [List.append_nil]
    exact h
  | cons u rest ih =>
    intro done s h
    rw [List.foldl_cons]
    have h2 := ih (done ++ [u]) _ (SpawnAcc_step u h)
    rwa [List.append_assoc] at h2

theorem SpawnAcc_initState (input : BattleInput) :
    SpawnAcc (sortedUnits input) (initState input) := by
  have hbase : SpawnAcc []
      ⟨[], [], [], [.battleInit 0 0 input], rngSeed input.seed, 0, 0, false⟩ := by
    refine ⟨rfl, List.nodup_nil, ?_, ?_⟩
    · intro e he
      exact absurd he (List.not_mem_nil e)
    · intro p hne
      exact absurd rfl hne
  have h := SpawnAcc_fold (sortedUnits input) [] _ hbase
  rwa [List.nil_append] at h

theorem SimInv_initState {input : BattleInput} {u : Unit}
    (hval : validateInput input = .ok u) (hsafe : SingletonSafe input) :
    SimInv input (initState input) := by
  cases u
  obtain ⟨⟨hnd, _⟩, _, htile⟩ := validateGo_props input input.units [] [] hval
  obtain ⟨hu, hk, hent, hcov⟩ := SpawnAcc_initState input
  have hperm : (sortedUnits input).Perm input.units :=
    List.perm_insertionSort unitIdLe input.units
  have hndS : ((sortedUnits input).map (·.id)).Nodup :=
    ((hperm.map (·.id)).nodup_iff).mpr hnd
  have hndU : ((initState input).units.map (·.id)).Nodup := by
    rw [hu, List.map_map]
    have hcomp : ((fun v : UnitState => v.id) ∘ mkUnitState) =
        fun w : UnitInput => w.id := by
      funext w
      rfl
    rw [hcomp]
    exact hndS
  have hliv : ∀ e ∈ (initState input).tileIndex,
      livingOf (initState input).units e.2 =
        ((sortedUnits input).filter fun w => decide (w.position = e.1)).map
          mkUnitState := by
    intro e he
    rw [(hent e he).1, hu]
    refine livingOf_spawned (sortedUnits input) ?_ _ ?_
    · rw [hu] at hndU
      exact hndU
    · intro w hw
      exact List.mem_of_mem_filter hw
  refine ⟨hk, ?_, ?_, ?_⟩
  · intro e he i hi
    rw [(hent e he).1] at hi
    obtain ⟨w, hw, hwid⟩ := List.mem_map.mp hi
    have hwpos : w.position = e.1 := of_decide_eq_true (List.mem_filter.mp hw).2
    refine ⟨mkUnitState w, ?_, hwpos⟩
    have hid : (mkUnitState w).id = i := hwid
    rw [← hid]
    refine findUnit_nodup hndU ?_
    rw [hu]
    exact List.mem_map.mpr ⟨w, List.mem_of_mem_filter hw, rfl⟩
  · intro v hv
    rw [hu] at hv
    obtain ⟨w, hw, rfl⟩ := List.mem_map.mp hv
    exact hsafe.2 w (hperm.subset hw)
  · intro e he
    rw [hliv e he]
    have hpermf : ((sortedUnits input).filter fun w => decide (w.position = e.1)).Perm
        (input.units.filter fun w => decide (w.position = e.1)) :=
      hperm.filter _
    have hin := (htile e.1).2 rfl
    refine ⟨?_, ?_, ?_⟩
    · intro a ha b hb
      obtain ⟨w₁, hw₁, rfl⟩ := List.mem_map.mp ha
      obtain ⟨w₂, hw₂, rfl⟩ := List.mem_map.mp hb
      exact hin.1 w₁ (hpermf.subset hw₁) w₂ (hpermf.subset hw₂)
    · rw [List.length_map]
      rcases Nat.lt_or_ge ((sortedUnits input).filter
          fun w => decide (w.position = e.1)).length 2 with hlt | hge
      · rcases Nat.lt_or_ge ((sortedUnits input).filter
            fun w => decide (w.position = e.1)).length 1 with hlt1 | hge1
        · have h0 : ((sortedUnits input).filter
              fun w => decide (w.position = e.1)).length = 0 := by omega
          rw [h0]
          exact Nat.zero_le _
        · calc ((sortedUnits input).filter fun w => decide (w.position = e.1)).length
              ≤ 1 := by omega
            _ ≤ input.limits.maxUnitsPerTile := hsafe.1
      · rw [hpermf.length_eq]
        rw [hpermf.length_eq] at hge
        exact (hin.2 hge).1
    · rw [List.map_map]
      have hcomp : ((fun v : UnitState => v.size) ∘ mkUnitState) =
          fun w : UnitInput => w.size := by
        funext w
        rfl
      rw [hcomp]
      rcases Nat.lt_or_ge ((sortedUnits input).filter
          fun w => decide (w.position = e.1)).length 2 with hlt | hge
      · cases hfil : (sortedUnits input).filter fun w => decide (w.position = e.1) with
        | nil => simp
        | cons w0 l0 =>
          rw [hfil] at hlt
          have hl0 : l0 = [] := by
            rw [List.length_cons] at hlt
            exact List.length_eq_zero.mp (by omega)
          subst hl0
          simp only [List.map_cons, List.map_nil, List.sum_cons, List.sum_nil,
            Nat.add_zero]
          refine hsafe.2 w0 (hperm.subset ?_)
          exact List.mem_of_mem_filter (hfil ▸ List.mem_cons_self w0 [])
      · rw [(hpermf.map (fun w : UnitInput => w.size)).sum_eq]
        rw [hpermf.length_eq] at hge
        exact (hin.2 hge).2

theorem reach_SimInv {input : BattleInput}
    (hval : validateInput input = .ok ()) (hsafe : SingletonSafe input) :
    ∀ {s : SimState}, Reach input s → SimInv input s := by
  intro s hr
  induction hr with
  | init => exact SimInv_initState hval hsafe
  | impact tick p hr ih => exact SimInv_impactOne tick p ih
  | act tick id hr hok ih => exact SimInv_unitAct hok ih
  | removal t hr ih => exact SimInv_removeState t ih
  | book b t hr ih => exact SimInv_fields rfl rfl ih

/-- **C2** (corrected): on a validated input whose lone units already respect
both caps on their own (`SingletonSafe` — validation never checks
single-occupant tiles, see `C2_counterexample`), every reachable simulation
state — the post-spawn state and everything obtainable by projectile
impacts, unit actions, removals and activity bookkeeping — satisfies the
tile occupancy invariant: on every tile of the index, the living occupants
share one side, number at most `maxUnitsPerTile`, and have total size at
most `maxSizePerTile`. -/
theorem C2_tile_invariant {input : BattleInput}
    (hval : validateInput input = .ok ()) (hsafe : SingletonSafe input)
    {s : SimState} (hs : Reach input s) : TileInvariant input s :=
  (reach_SimInv hval hsafe hs).2.2.2

theorem C2_tile_invariant_witness :
    TileInvariant c8amendedInput (initState c8amendedInput) :=
  C2_tile_invariant (by decide) (by decide) Reach.init


/-! ### Claim C4: supporting lemmas -/

theorem keyLE_refl (a : Nat × Nat × Nat) : keyLE a a := by
  right
  exact ⟨rfl, Or.inr ⟨rfl, Nat.le_refl _⟩⟩

theorem keyLE_trans {a b c : Nat × Nat × Nat} (h₁ : keyLE a b) (h₂ : keyLE b c) :
    keyLE a c := by
  rcases a with ⟨a1, a2, a3⟩
  rcases b with ⟨b1, b2, b3⟩
  rcases c with ⟨c1, c2, c3⟩
  simp only [keyLE, keyLT] at h₁ h₂ ⊢
  omega

theorem keyLT_le {a b : Nat × Nat × Nat} (h : keyLT a b) : keyLE a b := by
  rcases a with ⟨a1, a2, a3⟩
  rcases b with ⟨b1, b2, b3⟩
  simp only [keyLE, keyLT] at h ⊢
  omega

theorem keyLT_le_trans {a b c : Nat × Nat × Nat} (h₁ : keyLT a b) (h₂ : keyLE b c) :
    keyLT a c := by
  rcases a with ⟨a1, a2, a3⟩
  rcases b with ⟨b1, b2, b3⟩
  rcases c with ⟨c1, c2, c3⟩
  simp only [keyLE, keyLT] at h₁ h₂ ⊢
  omega

theorem keyLE_lt_trans {a b c : Nat × Nat × Nat} (h₁ : keyLE a b) (h₂ : keyLT b c) :
    keyLT a c := by
  rcases a with ⟨a1, a2, a3⟩
  rcases b with ⟨b1, b2, b3⟩
  rcases c with ⟨c1, c2, c3⟩
  simp only [keyLE, keyLT] at h₁ h₂ ⊢
  omega

theorem rankOf_le_three (e : BattleEvent) : rankOf e ≤ 3 := by
  cases e with
  | unitRemoved t q i sd c sr =>
    cases c <;> simp [rankOf]
  | battleInit t q i => simp [rankOf]
  | unitSpawned t q u => simp [rankOf]
  | unitMoved t q i a b => simp [rankOf]
  | meleeAttackResolved t q a b h => simp [rankOf]
  | projectileFired t q a sd k sp tp ft it d => simp [rankOf]
  | projectileImpacted t q a sd k tp it => simp [rankOf]
  | battleEnded t q r => simp [rankOf]

theorem rank_of_key {e : BattleEvent} {t r q : Nat} (h : evKey e = (t, r, q)) :
    e.tick = t ∧ rankOf e = r ∧ e.seq = q := by
  unfold evKey at h
  exact ⟨congrArg (·.1) h, congrArg (·.2.1) h, congrArg (·.2.2) h⟩

theorem chain_const (k : Nat × Nat × Nat) :
    ∀ l : List BattleEvent, (∀ e ∈ l, evKey e = k) → l.Chain' evLE := by
  intro l
  induction l with
  | nil => exact fun _ => List.chain'_nil
  | cons a t ih =>
    intro h
    cases t with
    | nil => exact List.chain'_singleton a
    | cons b t' =>
      refine List.chain'_cons.mpr ⟨?_, ih fun e he => h e (List.mem_cons_of_mem _ he)⟩
      show keyLE (evKey a) (evKey b)
      rw [h a (List.mem_cons_self _ _),
        h b (List.mem_cons_of_mem _ (List.mem_cons_self _ _))]
      exact keyLE_refl k

theorem chain_append_k {xs ys : List BattleEvent} {k : Nat × Nat × Nat}
    (hxs : xs.Chain' evLE) (hb : EvBounded xs k)
    (hys : ∀ e ∈ ys, evKey e = k) : (xs ++ ys).Chain' evLE := by
  rw [List.chain'_append]
  refine ⟨hxs, chain_const k ys hys, ?_⟩
  intro x hx y hy
  have hxm : x ∈ xs := List.mem_of_mem_getLast? hx
  have hym : y ∈ ys := List.mem_of_mem_head? hy
  show keyLE (evKey x) (evKey y)
  rw [hys y hym]
  exact hb x hxm

theorem EvBounded_of_LT {xs : List BattleEvent} {k : Nat × Nat × Nat}
    (h : EvBoundedLT xs k) : EvBounded xs k :=
  fun e he => keyLT_le (h e he)

theorem EvBoundedLT_mono {xs : List BattleEvent} {k k' : Nat × Nat × Nat}
    (h : EvBoundedLT xs k) (hk : keyLE k k') : EvBoundedLT xs k' :=
  fun e he => keyLT_le_trans (h e he) hk

theorem EvBounded_mono {xs : List BattleEvent} {k k' : Nat × Nat × Nat}
    (h : EvBounded xs k) (hk : keyLE k k') : EvBounded xs k' :=
  fun e he => keyLE_trans (h e he) hk

theorem EvTagged_append {xs batch : List BattleEvent} (h : EvTagged xs)
    (hr : ∀ e ∈ batch, rankOf e = 1 ∨ rankOf e = 2) : EvTagged (xs ++ batch) := by
  intro e he
  rcases List.mem_append.mp he with he' | he'
  · exact h e he'
  · rcases hr e he' with h1 | h1 <;>
      exact ⟨fun hc => absurd (h1 ▸ hc) (by omega), fun hc => absurd (h1 ▸ hc) (by omega)⟩

theorem impacts_fold_chain (input : BattleInput) (tick : Nat) :
    ∀ (L : List ProjectileState) (s : SimState),
    L.Pairwise projLe →
    s.events.Chain' evLE →
    EvBoundedLT s.events (tick, 2, 0) →
    (∀ p ∈ L, EvBounded s.events (tick, 1, p.sourceId)) →
    EvTagged s.events →
    (L.foldl (impactOne input tick) s).events.Chain' evLE ∧
    EvBoundedLT (L.foldl (impactOne input tick) s).events (tick, 2, 0) ∧
    EvTagged (L.foldl (impactOne input tick) s).events := by
  intro L
  induction L with
  | nil =>
    intro s _ h1 h2 _ h4
    exact ⟨h1, h2, h4⟩
  | cons p L' ih =>
    intro s hpw h1 h2 h3 h4
    rw [List.foldl_cons]
    obtain ⟨batch, hev, hkeys⟩ := impactOne_events input tick s p
    have hall : ∀ e ∈ (BattleEvent.projectileImpacted tick p.sourceId p.sourceId
        p.sourceSide p.kind p.target p.impactTick :: batch), evKey e = (tick, 1, p.sourceId) := by
      intro e he
      rcases List.mem_cons.mp he with rfl | he'
      · rfl
      · exact hkeys e he'
    have hch : (impactOne input tick s p).events.Chain' evLE := by
      rw [hev]
      exact chain_append_k h1 (h3 p (List.mem_cons_self _ _)) hall
    have hbLT : EvBoundedLT (impactOne input tick s p).events (tick, 2, 0) := by
      rw [hev]
      intro e he
      rcases List.mem_append.mp he with he' | he'
      · exact h2 e he'
      · rw [hall e he']
        right
        exact ⟨rfl, Or.inl (Nat.lt_succ_self 1)⟩
    have hbd : ∀ q ∈ L', EvBounded (impactOne input tick s p).events (tick, 1, q.sourceId) := by
      intro q hq
      have hpq : projLe p q := (List.pairwise_cons.mp hpw).1 q hq
      have hsrc : p.sourceId ≤ q.sourceId := by
        unfold projLe at hpq
        omega
      rw [hev]
      intro e he
      rcases List.mem_append.mp he with he' | he'
      · exact h3 q (List.mem_cons_of_mem _ hq) e he'
      · rw [hall e he']
        right
        exact ⟨rfl, Or.inr ⟨rfl, hsrc⟩⟩
    have htag : EvTagged (impactOne input tick s p).events := by
      rw [hev]
      refine EvTagged_append h4 ?_
      intro e he
      exact Or.inl (rank_of_key (hall e he)).2.1
    exact ih _ (List.pairwise_cons.mp hpw).2 hch hbLT hbd htag

theorem unitAct_events {input : BattleInput} {tick : Nat} {s : SimState} {uid : Nat}
    {s' : SimState} (hact : unitAct input tick s uid = .ok s') :
    ∃ batch, s'.events = s.events ++ batch ∧ ∀ e ∈ batch, evKey e = (tick, 2, uid) := by
  unfold unitAct at hact
  cases hfind : findUnit s.units uid with
  | none =>
    rw [hfind] at hact
    dsimp only at hact
    refine ⟨[], ?_, by simp⟩
    rw [← Except.ok.inj hact]
    simp
  | some unit =>
    have huid : unit.id = uid := (findUnit_props hfind).2
    rw [hfind] at hact
    dsimp only at hact
    split at hact
    · refine ⟨[], ?_, by simp⟩
      rw [← Except.ok.inj hact]
      simp
    · split at hact
      · rename_i target hmel
        split at hact
        · have hs := Except.ok.inj hact
          subst hs
          refine ⟨[.meleeAttackResolved tick unit.id unit.id target.id
              (decide (rngNext s.rngState < 2147483648)),
            .unitRemoved tick unit.id target.id target.side .melee unit.id], ?_, ?_⟩
          · simp
          · intro e he
            rcases List.mem_cons.mp he with rfl | he'
            · show (tick, 2, unit.id) = (tick, 2, uid)
              rw [huid]
            · rcases List.mem_singleton.mp he' with rfl
              show (tick, 2, unit.id) = (tick, 2, uid)
              rw [huid]
        · have hs := Except.ok.inj hact
          subst hs
          refine ⟨[.meleeAttackResolved tick unit.id unit.id target.id
              (decide (rngNext s.rngState < 2147483648))], ?_, ?_⟩
          · simp
          · intro e he
            rcases List.mem_singleton.mp he with rfl
            show (tick, 2, unit.id) = (tick, 2, uid)
            rw [huid]
      · split at hact
        · rename_i chosen hch
          have hs := Except.ok.inj hact
          subst hs
          refine ⟨[.projectileFired tick unit.id unit.id unit.side
              (if unit.type = .Archer then .Arrow else .Fireball) unit.position
              chosen.position tick
              (tick + PROJECTILE_SPEED (if unit.type = .Archer then .Arrow else .Fireball) *
                manhattan unit.position chosen.position)
              (manhattan unit.position chosen.position)], ?_, ?_⟩
          · simp
          · intro e he
            rcases List.mem_singleton.mp he with rfl
            show (tick, 2, unit.id) = (tick, 2, uid)
            rw [huid]
        · split at hact
          · rename_i step hstep
            split at hact
            · exact absurd hact (by simp)
            · have hs := Except.ok.inj hact
              subst hs
              refine ⟨[.unitMoved tick unit.id unit.id unit.position step], ?_, ?_⟩
              · simp
              · intro e he
                rcases List.mem_singleton.mp he with rfl
                show (tick, 2, unit.id) = (tick, 2, uid)
                rw [huid]
          · have hs := Except.ok.inj hact
            subst hs
            refine ⟨[], ?_, by simp⟩
            simp

theorem acts_fold_chain (input : BattleInput) (tick : Nat) :
    ∀ (L : List Nat) (s s' : SimState),
    L.Pairwise (· ≤ ·) →
    L.foldlM (unitAct input tick) s = .ok s' →
    s.events.Chain' evLE →
    EvBoundedLT s.events (tick, 3, 0) →
    (∀ uid ∈ L, EvBounded s.events (tick, 2, uid)) →
    EvTagged s.events →
    s'.events.Chain' evLE ∧ EvBoundedLT s'.events (tick, 3, 0) ∧ EvTagged s'.events := by
  intro L
  induction L with
  | nil =>
    intro s s' _ hok h1 h2 _ h4
    have hss : s = s' := Except.ok.inj hok
    subst hss
    exact ⟨h1, h2, h4⟩
  | cons uid L' ih =>
    intro s s' hpw hok h1 h2 h3 h4
    have hok2 : (unitAct input tick s uid >>= fun b =>
        L'.foldlM (unitAct input tick) b) = .ok s' := hok
    cases hstep : unitAct input tick s uid with
    | error e =>
      rw [hstep] at hok2
      exact absurd hok2 (by simp [Bind.bind, Except.bind])
    | ok s₁ =>
      rw [hstep] at hok2
      have hok3 : L'.foldlM (unitAct input tick) s₁ = .ok s' := by
        simpa [Bind.bind, Except.bind] using hok2
      obtain ⟨batch, hev, hkeys⟩ := unitAct_events hstep
      have hch : s₁.events.Chain' evLE := by
        rw [hev]
        exact chain_append_k h1 (h3 uid (List.mem_cons_self _ _)) hkeys
      have hbLT : EvBoundedLT s₁.events (tick, 3, 0) := by
        rw [hev]
        intro e he
        rcases List.mem_append.mp he with he' | he'
        · exact h2 e he'
        · rw [hkeys e he']
          right
          exact ⟨rfl, Or.inl (Nat.lt_succ_self 2)⟩
      have hbd : ∀ q ∈ L', EvBounded s₁.events (tick, 2, q) := by
        intro q hq
        have hle : uid ≤ q := (List.pairwise_cons.mp hpw).1 q hq
        rw [hev]
        intro e he
        rcases List.mem_append.mp he with he' | he'
        · exact h3 q (List.mem_cons_of_mem _ hq) e he'
        · rw [hkeys e he']
          right
          exact ⟨rfl, Or.inr ⟨rfl, hle⟩⟩
      have htag : EvTagged s₁.events := by
        rw [hev]
        refine EvTagged_append h4 ?_
        intro e he
        exact Or.inr (rank_of_key (hkeys e he)).2.1
      exact ih s₁ s' (List.pairwise_cons.mp hpw).2 hok3 hch hbLT hbd htag

theorem except_bind_ok {α β : Type} {x : Except String α} {f : α → Except String β}
    {b : β} (h : (x >>= f) = .ok b) : ∃ a, x = .ok a ∧ f a = .ok b := by
  cases x with
  | error e => exact absurd h (by simp [Bind.bind, Except.bind])
  | ok a =>
    refine ⟨a, rfl, ?_⟩
    simpa [Bind.bind, Except.bind] using h

theorem spawn_events (todo : List UnitInput) :
    ∀ s : SimState, (todo.foldl spawnStep s).events =
      s.events ++ todo.map fun u => .unitSpawned 0 u.id u := by
  induction todo with
  | nil =>
    intro s
    simp
  | cons u rest ih =>
    intro s
    rw [List.foldl_cons, ih]
    show (spawnStep s u).events ++ _ = _
    simp [spawnStep]

theorem initState_events (input : BattleInput) :
    (initState input).events =
      .battleInit 0 0 input :: ((sortedUnits input).map fun u => .unitSpawned 0 u.id u) := by
  unfold initState
  rw [spawn_events]
  rfl

theorem initState_chain (input : BattleInput) :
    (initState input).events.Chain' evLE ∧
    EvBoundedLT (initState input).events (0, 1, 0) ∧
    EvTagged (initState input).events := by
  rw [initState_events]
  have hsorted : (sortedUnits input).Pairwise unitIdLe :=
    List.sorted_insertionSort unitIdLe input.units
  refine ⟨?_, ?_, ?_⟩
  · rw [List.chain'_cons']
    constructor
    · intro y hy
      cases hs : sortedUnits input with
      | nil =>
        rw [hs] at hy
        simp at hy
      | cons w ws =>
        rw [hs] at hy
        simp only [List.map_cons, List.head?_cons, Option.mem_def,
          Option.some.injEq] at hy
        subst hy
        show keyLE (0, 0, 0) (0, 0, w.id)
        right
        exact ⟨rfl, Or.inr ⟨rfl, Nat.zero_le _⟩⟩
    · refine List.Pairwise.chain' ?_
      refine List.Pairwise.map _ ?_ hsorted
      intro a b hab
      show keyLE (0, 0, a.id) (0, 0, b.id)
      right
      exact ⟨rfl, Or.inr ⟨rfl, hab⟩⟩
  · intro e he
    rcases List.mem_cons.mp he with rfl | he'
    · show keyLT (0, 0, 0) (0, 1, 0)
      right
      exact ⟨rfl, Or.inl (Nat.lt_succ_self 0)⟩
    · obtain ⟨w, hw, rfl⟩ := List.mem_map.mp he'
      show keyLT (0, 0, w.id) (0, 1, 0)
      right
      exact ⟨rfl, Or.inl (Nat.lt_succ_self 0)⟩
  · intro e he
    rcases List.mem_cons.mp he with rfl | he'
    · exact ⟨fun _ => rfl, fun hc => by simp [rankOf] at hc⟩
    · obtain ⟨w, hw, rfl⟩ := List.mem_map.mp he'
      exact ⟨fun _ => rfl, fun hc => by simp [rankOf] at hc⟩

theorem runTick_chain {input : BattleInput} {tick : Nat} {s : SimState}
    {r : TickOutcome}
    (hok : runTick input tick s = .ok r)
    (h1 : s.events.Chain' evLE)
    (h2 : EvBoundedLT s.events (tick, 1, 0))
    (h3 : EvTagged s.events) :
    (∀ s', r = .inl s' → s'.events.Chain' evLE ∧
      EvBoundedLT s'.events (tick + 1, 1, 0) ∧ EvTagged s'.events) ∧
    (∀ out, r = .inr out → out.events.Chain' evLE) := by
  unfold runTick at hok
  try dsimp only at hok
  obtain ⟨s₂, hF, hrest⟩ := except_bind_ok hok
  have himp := impacts_fold_chain input tick
    ((({ s with activityThisTick := false } : SimState).projectiles.filter
      fun p => decide (p.impactTick = tick)).insertionSort projLe)
    { s with activityThisTick := false }
    (List.sorted_insertionSort projLe _) h1
    (EvBoundedLT_mono h2 (Or.inr ⟨rfl, Or.inl (Nat.lt_succ_self 1)⟩))
    (fun p hp => EvBounded_mono (EvBounded_of_LT h2)
      (Or.inr ⟨rfl, Or.inr ⟨rfl, Nat.zero_le _⟩⟩))
    h3
  have hpwU : (unitOrder input).Pairwise (fun a b : Nat => a ≤ b) :=
    List.Pairwise.map _ (fun a b hab => hab)
      (List.sorted_insertionSort unitIdLe input.units)
  obtain ⟨hch2, hbLT2, htag2⟩ := acts_fold_chain input tick (unitOrder input) _ s₂ hpwU hF
    himp.1
    (EvBoundedLT_mono himp.2.1 (Or.inr ⟨rfl, Or.inl (Nat.lt_succ_self 2)⟩))
    (fun uidq hq => EvBounded_mono (EvBounded_of_LT himp.2.1)
      (Or.inr ⟨rfl, Or.inr ⟨rfl, Nat.zero_le _⟩⟩))
    himp.2.2
  try dsimp only at hrest
  split at hrest
  all_goals split at hrest
  all_goals try split at hrest
  all_goals try split at hrest
  all_goals
    first
    | (have hr := Except.ok.inj hrest
       constructor
       · intro s' hs'
         rw [← hr] at hs'
         exact absurd hs' (by simp)
       · intro o ho
         rw [← hr] at ho
         have hoo := Sum.inr.inj ho
         rw [← hoo]
         refine chain_append_k hch2 (EvBounded_of_LT hbLT2) ?_
         intro e he
         rcases List.mem_singleton.mp he with rfl
         rfl)
    | (have hr := Except.ok.inj hrest
       constructor
       · intro s' hs'
         rw [← hr] at hs'
         have hss := Sum.inl.inj hs'
         rw [← hss]
         exact ⟨hch2, EvBoundedLT_mono hbLT2 (Or.inl (Nat.lt_succ_self tick)), htag2⟩
       · intro o ho
         rw [← hr] at ho
         exact absurd ho (by simp))

theorem runLoop_chain (input : BattleInput) :
    ∀ (fuel tick : Nat) (s : SimState) (out : ResolveOutput),
    fuel + tick = input.timeLimit + 1 →
    s.events.Chain' evLE →
    EvBoundedLT s.events (tick, 1, 0) →
    EvTagged s.events →
    runLoop input fuel tick s = .ok out →
    out.events.Chain' evLE := by
  intro fuel
  induction fuel with
  | zero =>
    intro tick s out hft h1 h2 h3 hok
    unfold runLoop at hok
    try dsimp only at hok
    have hr := Except.ok.inj hok
    rw [← hr]
    have hbd : EvBounded s.events (input.timeLimit, 3, 0) := by
      intro e he
      have hlt := h2 e he
      have htag := h3 e he
      have hrk := rankOf_le_three e
      have htick0 : tick = input.timeLimit + 1 := by omega
      subst htick0
      rcases hk : evKey e with ⟨t', r', q'⟩
      obtain ⟨ht', hr', hq'⟩ := rank_of_key hk
      rw [hk] at hlt
      rw [hr', ht', hq'] at htag
      rw [hr'] at hrk
      simp only [keyLE, keyLT] at hlt ⊢
      omega
    refine chain_append_k h1 hbd ?_
    intro e he
    rcases List.mem_singleton.mp he with rfl
    rfl
  | succ fuel ihf =>
    intro tick s out hft h1 h2 h3 hok
    unfold runLoop at hok
    split at hok
    · exact absurd hok (by simp)
    · split at hok
      · exact absurd hok (by simp)
      · rename_i s' hrt
        obtain ⟨hc, hb, ht⟩ := (runTick_chain hrt h1 h2 h3).1 s' rfl
        exact ihf (tick + 1) s' out (by omega) hc hb ht hok
      · rename_i o hrt
        have hoo := Except.ok.inj hok
        rw [← hoo]
        exact (runTick_chain hrt h1 h2 h3).2 o rfl

/-- **C4** (corrected): the event log of every successful resolution is
sorted, but in the lexicographic (tick, phase, seq) order — phases within a
tick run setup, impacts (with their removals), actions (with melee
removals), terminal — not in the claimed (tick, seq) order: the terminal
`BattleEnded` event always carries seq 0, so on any tick whose other
events have positive seq the as-stated order fails (see
`C4_counterexample`). -/
theorem C4_event_order {input : BattleInput} {o : ResolveOutput}
    (hok : resolveBattle input = .ok o) : o.events.Chain' evLE := by
  unfold resolveBattle at hok
  cases hval : validateInput input with
  | error e =>
    rw [hval] at hok
    exact absurd hok (by simp)
  | ok u =>
    rw [hval] at hok
    try dsimp only at hok
    obtain ⟨hc, hb, ht⟩ := initState_chain input
    exact runLoop_chain input (input.timeLimit + 1) 0 (initState input) o
      (by omega) hc hb ht hok

theorem C4_event_order_witness :
    (({ input := c8amendedInput, events := c8events, result := c8result } :
      ResolveOutput)).events.Chain' evLE :=
  @C4_event_order c8amendedInput
    { input := c8amendedInput, events := c8events, result := c8result } (by decide)

end TickBattle
